import Mathlib

/-!
Verification development for the poly relay core slice:
`core/store/ledgerstore` block store, the ONT foreign-header sync handler,
and the cross-chain-manager dispatcher entrance.

Byte strings are modelled as `List Nat`; machine integers as `Nat` with
explicit bounds where overflow matters.  The cryptographic hash of a
transaction is modelled as the injective map sending the transaction to
its raw bytes, and a block hash as the serialized header; this preserves
determinism and injectivity, the only properties the store relies on.
-/

namespace Poly

/-- Little-endian 4-byte encoding of a natural number, as written by
`binary.LittleEndian.PutUint32` and `serialization.WriteUint32` in the source. -/
def putU32 (n : Nat) : List Nat :=
  [n % 256, n / 256 % 256, n / 256 ^ 2 % 256, n / 256 ^ 3 % 256]

/-- Read a little-endian 4-byte value from the front of a byte list
(`ZeroCopySource.NextUint32`, `serialization.ReadUint32`). -/
def takeU32 : List Nat → Option (Nat × List Nat)
  | b0 :: b1 :: b2 :: b3 :: rest =>
      some (b0 + 256 * b1 + 256 ^ 2 * b2 + 256 ^ 3 * b3, rest)
  | _ => none

/-- Little-endian 8-byte encoding, via the two 4-byte halves. -/
def putU64 (n : Nat) : List Nat :=
  putU32 (n % 2 ^ 32) ++ putU32 (n / 2 ^ 32)

/-- Read a little-endian 8-byte value. -/
def takeU64 (l : List Nat) : Option (Nat × List Nat) :=
  match takeU32 l with
  | none => none
  | some (lo, l1) =>
    match takeU32 l1 with
    | none => none
    | some (hi, l2) => some (lo + 2 ^ 32 * hi, l2)

/-- Take exactly `n` bytes from the front of a list. -/
def takeN (n : Nat) (l : List Nat) : Option (List Nat × List Nat) :=
  if n ≤ l.length then some (l.take n, l.drop n) else none

/-- Length-prefixed byte-string encoding (the spec's length-prefixed
binary serialization format). -/
def putBytes (xs : List Nat) : List Nat :=
  putU32 xs.length ++ xs

/-- Read a length-prefixed byte string. -/
def takeBytes (l : List Nat) : Option (List Nat × List Nat) :=
  match takeU32 l with
  | none => none
  | some (n, l1) => takeN n l1

/-- A content identifier (block hash, transaction hash).  The source's
fixed 32-byte `Uint256` is modelled as a byte list. -/
abbrev Hash := List Nat

/-- A ledger transaction: immutable raw bytes (`types.Transaction`). -/
structure Transaction where
  Raw : List Nat
deriving DecidableEq

/-- Transaction hash (`tx.Hash()`): the cryptographic hash is modelled as
the injective map to the transaction's raw bytes. -/
def Transaction.Hash (t : Transaction) : Hash := t.Raw

/-- Own-chain block header (`types.Header`), with the fields the spec's
data model names. -/
structure Header where
  height : Nat
  prevHash : Hash
  merkleRoot : Hash
  timestamp : Nat
  chainId : Nat
  sig : List Nat
deriving DecidableEq

/-- Source `Header.Serialization`: the spec's length-prefixed binary layout with
little-endian integer fields. -/
def Header.serialize (h : Header) : List Nat :=
  putU32 h.height ++ putBytes h.prevHash ++ putBytes h.merkleRoot
    ++ putU32 h.timestamp ++ putU64 h.chainId ++ putBytes h.sig

/-- Source `Header.Deserialization`: parse a header from the front of a byte list. -/
def takeHeader (l : List Nat) : Option (Header × List Nat) :=
  match takeU32 l with
  | none => none
  | some (height, l1) =>
  match takeBytes l1 with
  | none => none
  | some (prevHash, l2) =>
  match takeBytes l2 with
  | none => none
  | some (merkleRoot, l3) =>
  match takeU32 l3 with
  | none => none
  | some (timestamp, l4) =>
  match takeU64 l4 with
  | none => none
  | some (chainId, l5) =>
  match takeBytes l5 with
  | none => none
  | some (sg, l6) =>
      some ({ height := height, prevHash := prevHash, merkleRoot := merkleRoot,
              timestamp := timestamp, chainId := chainId, sig := sg }, l6)

/-- Field bounds guaranteed by the source's machine-integer types
(`uint32` height and timestamp, `uint64` chain id, 32-byte hashes). -/
abbrev WFHeader (h : Header) : Prop :=
  h.height < 2 ^ 32 ∧ h.prevHash.length < 2 ^ 32 ∧ h.merkleRoot.length < 2 ^ 32
    ∧ h.timestamp < 2 ^ 32 ∧ h.chainId < 2 ^ 64 ∧ h.sig.length < 2 ^ 32

/-- A block: a header plus its transactions (`types.Block`). -/
structure Block where
  Header : Header
  Transactions : List Transaction
deriving DecidableEq

/-- Source `block.Hash()`: the block hash is the hash of the header, modelled as
the serialized header. -/
def Block.Hash (b : Block) : Hash := b.Header.serialize

/-- Well-formedness enforced by the source's machine types: bounded header
fields, a `uint32` transaction count and 32-byte transaction hashes. -/
abbrev WFBlock (b : Block) : Prop :=
  WFHeader b.Header ∧ b.Transactions.length < 2 ^ 32
    ∧ ∀ t ∈ b.Transactions, t.Raw.length < 2 ^ 32

/-- Errors surfaced by the store layer: `scom.ErrNotFound` for absence, an
I/O error from the substrate, an unexpected-EOF deserialization error, and
formatted errors built with `fmt.Errorf`. -/
inductive SErr where
  | notFound
  | io
  | eof
  | other (msg : String)
deriving DecidableEq

/-- First-match association-list lookup over byte keys. -/
def assocFind (l : List (List Nat × List Nat)) (k : List Nat) : Option (List Nat) :=
  (l.find? (fun e => decide (e.1 = k))).map (·.2)

/-- Model of the `leveldbstore.LevelDBStore` substrate: committed data,
the staged batch (`NewBatch`/`BatchPut`/`BatchCommit`), and a set of keys
whose point reads fail with a substrate I/O error. -/
structure KVStore where
  data : List (List Nat × List Nat)
  batch : List (List Nat × List Nat)
  faults : List (List Nat)
deriving DecidableEq

/-- Source `store.Get`: a point read; a faulted key surfaces an I/O error, an
absent key `ErrNotFound`. -/
def KVStore.Get (s : KVStore) (k : List Nat) : Except SErr (List Nat) :=
  if k ∈ s.faults then .error .io
  else
    match assocFind s.data k with
    | some v => .ok v
    | none => .error .notFound

/-- Source `store.Put`: a direct write, visible immediately. -/
def KVStore.Put (s : KVStore) (k v : List Nat) : KVStore :=
  { s with data := (k, v) :: s.data }

/-- Source `store.BatchPut`: stage a write into the current batch. -/
def KVStore.BatchPut (s : KVStore) (k v : List Nat) : KVStore :=
  { s with batch := s.batch ++ [(k, v)] }

/-- Source `store.BatchCommit`: apply the staged batch to the data, in staging
order (a later staged write to the same key wins), and clear the batch. -/
def KVStore.BatchCommit (s : KVStore) : KVStore :=
  { s with data := s.batch.reverse ++ s.data, batch := [] }

/-- Modelled from the spec: the record-type discriminant bytes of
`core/store/common` are not part of the source slice; the spec requires
one distinct discriminant byte per record type (header / transaction /
block-hash-by-height / current-tip / version). -/
def DATA_BLOCK : Nat := 0

def DATA_HEADER : Nat := 1

def DATA_TRANSACTION : Nat := 2

def SYS_CURRENT_BLOCK : Nat := 16

def SYS_VERSION : Nat := 17

/-- Source `BlockStore.getTransactionKey`: discriminant byte then the raw hash. -/
def getTransactionKey (txHash : Hash) : List Nat :=
  DATA_TRANSACTION :: txHash

/-- Source `BlockStore.getHeaderKey`: discriminant byte then the raw hash. -/
def getHeaderKey (blockHash : Hash) : List Nat :=
  DATA_HEADER :: blockHash

/-- Source `BlockStore.getBlockHashKey`: discriminant byte then the 4-byte
little-endian height. -/
def getBlockHashKey (height : Nat) : List Nat :=
  DATA_BLOCK :: putU32 height

/-- Source `BlockStore.getCurrentBlockKey`. -/
def getCurrentBlockKey : List Nat :=
  [SYS_CURRENT_BLOCK]

/-- Source `BlockStore.getVersionKey`. -/
def getVersionKey : List Nat :=
  [SYS_VERSION]

/-- Cache capacity (`BLOCK_CACHE_SIZE` in the cache implementation, which
is outside the source slice; the spec only requires the cache to be
bounded with recent entries retained). -/
def BLOCK_CACHE_SIZE : Nat := 256

/-- Model of `BlockCache`: bounded lists of recent blocks and
transactions, most recent first. -/
structure BlockCache where
  blocks : List (Hash × Block)
  txs : List (Hash × (Transaction × Nat))
deriving DecidableEq

/-- Source `cache.AddBlock`: record the block under its hash, evicting beyond
the capacity bound. -/
def BlockCache.AddBlock (c : BlockCache) (b : Block) : BlockCache :=
  { c with blocks := ((b.Hash, b) :: c.blocks).take BLOCK_CACHE_SIZE }

/-- Source `cache.GetBlock`. -/
def BlockCache.GetBlock (c : BlockCache) (h : Hash) : Option Block :=
  (c.blocks.find? (fun e => decide (e.1 = h))).map (·.2)

/-- Source `cache.ContainBlock`. -/
def BlockCache.ContainBlock (c : BlockCache) (h : Hash) : Bool :=
  (c.GetBlock h).isSome

/-- Source `cache.AddTransaction`: record the transaction and its inclusion
height under its hash. -/
def BlockCache.AddTransaction (c : BlockCache) (t : Transaction) (height : Nat) : BlockCache :=
  { c with txs := ((t.Hash, (t, height)) :: c.txs).take BLOCK_CACHE_SIZE }

/-- Source `cache.GetTransaction`. -/
def BlockCache.GetTransaction (c : BlockCache) (h : Hash) : Option (Transaction × Nat) :=
  (c.txs.find? (fun e => decide (e.1 = h))).map (·.2)

/-- Source `cache.ContainTransaction`. -/
def BlockCache.ContainTransaction (c : BlockCache) (h : Hash) : Bool :=
  (c.GetTransaction h).isSome

/-- The empty cache a fresh store starts with. -/
def emptyCache : BlockCache := { blocks := [], txs := [] }

/-- Source `ledgerstore.BlockStore`: the cache flag, the cache and the substrate. -/
structure BlockStore where
  enableCache : Bool
  cache : BlockCache
  store : KVStore
deriving DecidableEq

/-- The byte list persisted under a header key by `SaveHeader`: the
serialized header, the `uint32` transaction count, then each transaction
hash in order. -/
def txHashesBytes : List Transaction → List Nat
  | [] => []
  | t :: ts => putBytes t.Hash ++ txHashesBytes ts

/-- The header record value written by `BlockStore.SaveHeader`. -/
def headerValue (b : Block) : List Nat :=
  b.Header.serialize ++ putU32 b.Transactions.length ++ txHashesBytes b.Transactions

/-- Source `BlockStore.SaveHeader`: stage the header record into the batch. -/
def BlockStore.SaveHeader (s : BlockStore) (b : Block) : BlockStore :=
  { s with store := s.store.BatchPut (getHeaderKey b.Hash) (headerValue b) }

/-- The transaction record value written by `putTransaction`: the
`uint32` inclusion height then the raw transaction bytes. -/
def txValue (height : Nat) (t : Transaction) : List Nat :=
  putU32 height ++ t.Raw

/-- Source `BlockStore.putTransaction`: stage the transaction record. -/
def BlockStore.putTransaction (s : BlockStore) (t : Transaction) (height : Nat) : BlockStore :=
  { s with store := s.store.BatchPut (getTransactionKey t.Hash) (txValue height t) }

/-- Source `BlockStore.SaveTransaction`: cache the transaction when caching is
enabled, then stage its record. -/
def BlockStore.SaveTransaction (s : BlockStore) (t : Transaction) (height : Nat) : BlockStore :=
  let s1 := if s.enableCache then { s with cache := s.cache.AddTransaction t height } else s
  s1.putTransaction t height

/-- Source `BlockStore.SaveBlock`: cache the block when caching is enabled, then
stage the header record and every transaction record.  Note that in the
source `SaveHeader` and `putTransaction` only stage batch writes and
cannot fail, so `SaveBlock` itself always returns a nil error. -/
def BlockStore.SaveBlock (s : BlockStore) (b : Block) : BlockStore :=
  let s1 := if s.enableCache then { s with cache := s.cache.AddBlock b } else s
  let s2 := s1.SaveHeader b
  b.Transactions.foldl (fun acc t => acc.SaveTransaction t b.Header.height) s2

/-- Source `BlockStore.ContainBlock`: cache-first existence check; `ErrNotFound`
maps to `false` with no error, other read failures propagate. -/
def BlockStore.ContainBlock (s : BlockStore) (blockHash : Hash) : Except SErr Bool :=
  if s.enableCache && s.cache.ContainBlock blockHash then .ok true
  else
    match s.store.Get (getHeaderKey blockHash) with
    | .ok _ => .ok true
    | .error .notFound => .ok false
    | .error e => .error e

/-- Source `BlockStore.ContainTransaction`: cache-first existence check. -/
def BlockStore.ContainTransaction (s : BlockStore) (txHash : Hash) : Except SErr Bool :=
  if s.enableCache && s.cache.ContainTransaction txHash then .ok true
  else
    match s.store.Get (getTransactionKey txHash) with
    | .ok _ => .ok true
    | .error .notFound => .ok false
    | .error e => .error e

/-- Read `n` consecutive hashes (`source.NextHash` in a loop). -/
def takeHashes : Nat → List Nat → Option (List Hash × List Nat)
  | 0, l => some ([], l)
  | n + 1, l =>
    match takeBytes l with
    | none => none
    | some (h, l1) =>
      match takeHashes n l1 with
      | none => none
      | some (hs, l2) => some (h :: hs, l2)

/-- Source `BlockStore.loadHeaderWithTx`: read the header record and parse the
header, the transaction count and the transaction-hash list. -/
def loadHeaderWithTx (st : KVStore) (blockHash : Hash) : Except SErr (Header × List Hash) :=
  match st.Get (getHeaderKey blockHash) with
  | .error e => .error e
  | .ok value =>
    match takeHeader value with
    | none => .error .eof
    | some (header, r1) =>
      match takeU32 r1 with
      | none => .error .eof
      | some (txSize, r2) =>
        match takeHashes txSize r2 with
        | none => .error .eof
        | some (txHashes, _) => .ok (header, txHashes)

/-- Source `BlockStore.loadHeader`: read the header record and parse only the
header, ignoring the trailing transaction-hash list. -/
def loadHeader (st : KVStore) (blockHash : Hash) : Except SErr Header :=
  match st.Get (getHeaderKey blockHash) with
  | .error e => .error e
  | .ok value =>
    match takeHeader value with
    | none => .error .eof
    | some (header, _) => .ok header

/-- Source `BlockStore.loadTransaction`'s store path: read the transaction
record, parse the `uint32` height, and deserialize the remaining bytes as
the transaction (`tx.Deserialization` consumes the rest of the record). -/
def loadTransactionData (st : KVStore) (txHash : Hash) : Except SErr (Transaction × Nat) :=
  match st.Get (getTransactionKey txHash) with
  | .error e => .error e
  | .ok value =>
    match takeU32 value with
    | none => .error .eof
    | some (height, rest) => .ok (⟨rest⟩, height)

/-- Source `BlockStore.loadTransaction`: a (redundant) cache check kept from the
source, then the store path. -/
def BlockStore.loadTransaction (s : BlockStore) (txHash : Hash) : Except SErr (Transaction × Nat) :=
  if s.enableCache then
    match s.cache.GetTransaction txHash with
    | some r => .ok r
    | none => loadTransactionData s.store txHash
  else loadTransactionData s.store txHash

/-- Source `BlockStore.GetTransaction`: cache first, then the load path. -/
def BlockStore.GetTransaction (s : BlockStore) (txHash : Hash) : Except SErr (Transaction × Nat) :=
  if s.enableCache then
    match s.cache.GetTransaction txHash with
    | some r => .ok r
    | none => s.loadTransaction txHash
  else s.loadTransaction txHash

/-- The transaction-collection loop of `BlockStore.GetBlock`: any failure
of `GetTransaction` for a referenced hash is wrapped into a formatted
fatal error (the index promised a transaction the store lacks). -/
def getBlockTxLoop (s : BlockStore) : List Hash → Except SErr (List Transaction)
  | [] => .ok []
  | txHash :: rest =>
    match s.GetTransaction txHash with
    | .error _ => .error (.other "GetTransaction error")
    | .ok (tx, _) =>
      match getBlockTxLoop s rest with
      | .error e => .error e
      | .ok txs => .ok (tx :: txs)

/-- The store-reconstruction path of `BlockStore.GetBlock`: load the
header record, then every referenced transaction. -/
def BlockStore.GetBlockFromStore (s : BlockStore) (blockHash : Hash) : Except SErr Block :=
  match loadHeaderWithTx s.store blockHash with
  | .error e => .error e
  | .ok (header, txHashes) =>
    match getBlockTxLoop s txHashes with
    | .error e => .error e
    | .ok txList => .ok ⟨header, txList⟩

/-- Source `BlockStore.GetBlock`: cache hit returns immediately; a miss
reconstructs the block from the store. -/
def BlockStore.GetBlock (s : BlockStore) (blockHash : Hash) : Except SErr Block :=
  if s.enableCache then
    match s.cache.GetBlock blockHash with
    | some b => .ok b
    | none => s.GetBlockFromStore blockHash
  else s.GetBlockFromStore blockHash

/-- Source `BlockStore.GetHeader`: a cache hit returns the cached block's
header; a miss loads from the store. -/
def BlockStore.GetHeader (s : BlockStore) (blockHash : Hash) : Except SErr Header :=
  if s.enableCache then
    match s.cache.GetBlock blockHash with
    | some b => .ok b.Header
    | none => loadHeader s.store blockHash
  else loadHeader s.store blockHash

/-- Source `BlockStore.SaveCurrentBlock`: stage the tip-pointer record (hash
then `uint32` height). -/
def BlockStore.SaveCurrentBlock (s : BlockStore) (height : Nat) (blockHash : Hash) : BlockStore :=
  { s with store := s.store.BatchPut getCurrentBlockKey (putBytes blockHash ++ putU32 height) }

/-- Source `BlockStore.GetCurrentBlock`: read and parse the tip pointer. -/
def BlockStore.GetCurrentBlock (s : BlockStore) : Except SErr (Hash × Nat) :=
  match s.store.Get getCurrentBlockKey with
  | .error e => .error e
  | .ok data =>
    match takeBytes data with
    | none => .error .eof
    | some (blockHash, r1) =>
      match takeU32 r1 with
      | none => .error .eof
      | some (height, _) => .ok (blockHash, height)

/-- Source `BlockStore.SaveBlockHash`: stage the height-to-hash index record;
overwriting an existing height entry is allowed. -/
def BlockStore.SaveBlockHash (s : BlockStore) (height : Nat) (blockHash : Hash) : BlockStore :=
  { s with store := s.store.BatchPut (getBlockHashKey height) blockHash }

/-- Source `BlockStore.GetBlockHash` (`Uint256ParseFromBytes` modelled as the
identity on the stored bytes). -/
def BlockStore.GetBlockHash (s : BlockStore) (height : Nat) : Except SErr Hash :=
  match s.store.Get (getBlockHashKey height) with
  | .error e => .error e
  | .ok value => .ok value

/-- Source `BlockStore.SaveVersion`: a direct `store.Put`, not a batch write. -/
def BlockStore.SaveVersion (s : BlockStore) (ver : Nat) : BlockStore :=
  { s with store := s.store.Put getVersionKey [ver] }

/-- Source `BlockStore.GetVersion`: read the single version byte. -/
def BlockStore.GetVersion (s : BlockStore) : Except SErr Nat :=
  match s.store.Get getVersionKey with
  | .error e => .error e
  | .ok value =>
    match value with
    | v :: _ => .ok v
    | [] => .error .eof

/-- Source `BlockStore.CommitTo`: commit the staged batch to the store. -/
def BlockStore.CommitTo (s : BlockStore) : BlockStore :=
  { s with store := s.store.BatchCommit }

/-! ### ONT foreign-header synchronization (`ONTHandler.SyncBlockHeader`) -/

/-- Errors of the header-sync handler. -/
inductive OErr where
  | parse
  | io
  | notFound
  | dup (chain height : Nat)
  | verifyFailed
deriving DecidableEq

/-- A foreign ONT header (`otypes.Header`): its chain id (`ShardID`),
height, producer signature, and the embedded validator-set-rotation
payload when one is present. -/
structure OHeader where
  ShardID : Nat
  Height : Nat
  Sig : Nat
  Rotation : Option (List Nat)
deriving DecidableEq

/-- Per-foreign-chain state: stored headers keyed by (chain, height),
the appended consensus-peer-set history, and the set of (chain, height)
keys whose substrate read fails. -/
structure OntState where
  headers : List ((Nat × Nat) × OHeader)
  peers : List ((Nat × Nat) × List Nat)
  faults : List (Nat × Nat)
deriving DecidableEq

/-- The stored header at (chain, height), latest write first. -/
def headerAt (s : OntState) (c h : Nat) : Option OHeader :=
  (s.headers.find? (fun e => decide (e.1 = (c, h)))).map (·.2)

/-- The consensus-peer-set entry appended exactly at (chain, height). -/
def peerAt (s : OntState) (c h : Nat) : Option (List Nat) :=
  (s.peers.find? (fun e => decide (e.1 = (c, h)))).map (·.2)

/-- Modelled from the spec: peer-set lookup is the latest registered set
with height at most the query height (version-floor lookup). -/
def peerFloor (s : OntState) (c h : Nat) : Option (List Nat) :=
  ((s.peers.filter (fun e => decide (e.1.1 = c ∧ e.1.2 ≤ h))).foldl
    (fun best e =>
      match best with
      | none => some e
      | some b => if b.1.2 < e.1.2 then some e else some b) none).map (·.2)

/-- Modelled from the spec: `GetHeaderByHeight` reads the stored header
for (chain, height) from the substrate; a substrate fault surfaces as a
storage error, an absent header as NotFound. -/
def GetHeaderByHeight (s : OntState) (c h : Nat) : Except OErr OHeader :=
  if (c, h) ∈ s.faults then .error .io
  else
    match headerAt s c h with
    | some hdr => .ok hdr
    | none => .error .notFound

/-- Modelled from the spec: `verifyHeader` checks the header's producer
signature against the peer set in force at the previous height. -/
def verifyHeader (s : OntState) (hdr : OHeader) : Except OErr Unit :=
  match peerFloor s hdr.ShardID (hdr.Height - 1) with
  | none => .error .verifyFailed
  | some ps => if hdr.Sig ∈ ps then .ok () else .error .verifyFailed

/-- Modelled from the spec: `PutBlockHeader` persists the header under
its (chain, height). -/
def PutBlockHeader (s : OntState) (hdr : OHeader) : OntState :=
  { s with headers := ((hdr.ShardID, hdr.Height), hdr) :: s.headers }

/-- Modelled from the spec: `UpdateConsensusPeer` inspects the header for
an embedded validator-set-rotation payload and, when present, appends a
new consensus-peer-set entry at this height. -/
def UpdateConsensusPeer (s : OntState) (hdr : OHeader) : OntState :=
  match hdr.Rotation with
  | some ps => { s with peers := ((hdr.ShardID, hdr.Height), ps) :: s.peers }
  | none => s

/-- Source `hscommon.SyncBlockHeaderParam`: the relayer address and the raw
headers.  A raw header that fails `otypes.HeaderFromRawBytes` is
modelled as `none`. -/
structure SyncBlockHeaderParam where
  Address : Nat
  Headers : List (Option OHeader)

/-- The per-header loop of `ONTHandler.SyncBlockHeader`, mutating the
handler state in place as the source does; on error the loop returns and
the state mutated so far is what the enclosing service holds.  Note the
duplicate check follows the source exactly: any lookup error — not only
NotFound — is treated as absence (`if err == nil` in the source). -/
def syncLoop : OntState → List (Option OHeader) → Except OErr Unit × OntState
  | s, [] => (.ok (), s)
  | s, none :: _ => (.error .parse, s)
  | s, some hdr :: rest =>
    match GetHeaderByHeight s hdr.ShardID hdr.Height with
    | .ok _ => (.error (.dup hdr.ShardID hdr.Height), s)
    | .error _ =>
      match verifyHeader s hdr with
      | .error e => (.error e, s)
      | .ok _ => syncLoop (UpdateConsensusPeer (PutBlockHeader s hdr) hdr) rest

/-- Source `ONTHandler.SyncBlockHeader`. -/
def SyncBlockHeader (s : OntState) (params : SyncBlockHeaderParam) :
    Except OErr Unit × OntState :=
  syncLoop s params.Headers

/-! ### Cross-chain manager entrance (`cross_chain_manager/entrance.go`) -/

/-- Modelled from the spec: the chain-id constants of `native/service/utils`
(the source switch handles exactly the BTC, ETH, ONT and NEO ids). -/
def BTC_CHAIN_ID : Nat := 1

def ETH_CHAIN_ID : Nat := 2

def ONT_CHAIN_ID : Nat := 3

def NEO_CHAIN_ID : Nat := 4

/-- Dispatcher errors. -/
inductive DErr where
  | getSideChainErr
  | sideChainNotRegistered
  | targetNotRegistered
  | unsupportedChain (cid : Nat)
  | depositFailed
  | makeTxFailed
deriving DecidableEq

/-- A registered side-chain record as the entrance reads it. -/
structure SideChain where
  ChainId : Nat
deriving DecidableEq

/-- The deposit proposal extracted by `MakeDepositProposal`
(`MakeTxParam`): the entrance uses only its declared target chain. -/
structure TxParam where
  ToChainID : Nat
  TxHash : List Nat
deriving DecidableEq

/-- Source `crosscommon.EntranceParam`, already deserialized. -/
structure EntranceParam where
  SourceChainID : Nat
  TargetChainID : Nat
  Height : Nat
deriving DecidableEq

/-- One observable chain-handler invocation made by the entrance. -/
inductive CallEvent where
  | depositCalled (chain : Nat)
  | makeTxCalled (chain : Nat) (p : TxParam)
deriving DecidableEq

/-- The dispatcher environment: the side-chain registry and, as oracles,
the chain handlers' `MakeDepositProposal` and `MakeTransaction`
behaviours (their bodies live outside the entrance). -/
structure DispatchEnv where
  sideChains : List (Nat × SideChain)
  deposit : Nat → Except DErr TxParam
  makeTx : Nat → TxParam → Except DErr Unit

/-- Modelled from the spec: `side_chain_manager.GetSideChain` returns the
registered record for a chain id, or NotFound when no record exists. -/
def GetSideChain (env : DispatchEnv) (chainID : Nat) : Except DErr SideChain :=
  match env.sideChains.find? (fun e => decide (e.1 = chainID)) with
  | some e => .ok e.2
  | none => .error .getSideChainErr

/-- Source `GetChainHandler`: the chain-id switch; the handler is identified by
its chain id. -/
def GetChainHandler (chainid : Nat) : Except DErr Nat :=
  if chainid = BTC_CHAIN_ID ∨ chainid = ETH_CHAIN_ID
      ∨ chainid = ONT_CHAIN_ID ∨ chainid = NEO_CHAIN_ID then .ok chainid
  else .error (.unsupportedChain chainid)

/-- Source `ImportExTransfer`, with the exact control flow of the source:
source-chain registration check, handler resolution, then — only for
source chain ids 2 and 3 — proposal extraction, target re-validation,
target handler resolution and `MakeTransaction`; for every other source
chain the proposal is extracted and success returned immediately.
The second component records which handler capabilities were invoked. -/
def ImportExTransfer (env : DispatchEnv) (params : EntranceParam) :
    Except DErr Unit × List CallEvent :=
  match GetSideChain env params.SourceChainID with
  | .error _ => (.error .getSideChainErr, [])
  | .ok sideChain =>
    if sideChain.ChainId ≠ params.SourceChainID then (.error .sideChainNotRegistered, [])
    else
      match GetChainHandler params.SourceChainID with
      | .error e => (.error e, [])
      | .ok _ =>
        if params.SourceChainID = 2 ∨ params.SourceChainID = 3 then
          match env.deposit params.SourceChainID with
          | .error e => (.error e, [.depositCalled params.SourceChainID])
          | .ok txParam =>
            match GetSideChain env txParam.ToChainID with
            | .error _ => (.error .getSideChainErr, [.depositCalled params.SourceChainID])
            | .ok sc2 =>
              if sc2.ChainId ≠ txParam.ToChainID then
                (.error .targetNotRegistered, [.depositCalled params.SourceChainID])
              else
                match GetChainHandler txParam.ToChainID with
                | .error e => (.error e, [.depositCalled params.SourceChainID])
                | .ok _ =>
                  match env.makeTx txParam.ToChainID txParam with
                  | .error e =>
                      (.error e, [.depositCalled params.SourceChainID,
                        .makeTxCalled txParam.ToChainID txParam])
                  | .ok _ =>
                      (.ok (), [.depositCalled params.SourceChainID,
                        .makeTxCalled txParam.ToChainID txParam])
        else
          match env.deposit params.SourceChainID with
          | .error e => (.error e, [.depositCalled params.SourceChainID])
          | .ok _ => (.ok (), [.depositCalled params.SourceChainID])

/-! ### Observable-behaviour machinery -/

/-- The header-stored / peer-set-updated pairing invariant of the
header-sync handler: a consensus-peer-set entry exists at (chain, height)
exactly when the stored header there carries a rotation payload, and then
it is that payload.  This is precisely "a header is never stored without
its peer-set update, or vice versa". -/
def syncInv (s : OntState) : Prop :=
  ∀ c h, peerAt s c h = (headerAt s c h).bind OHeader.Rotation

/-- A `BlockStore` operation, for comparing observable behaviour. -/
inductive Op where
  | saveBlock (b : Block)
  | commit
  | getBlock (h : Hash)
  | getHeader (h : Hash)
  | getTx (h : Hash)
  | containBlock (h : Hash)
  | containTx (h : Hash)
deriving DecidableEq

instance {ε α : Type} [DecidableEq ε] [DecidableEq α] : DecidableEq (Except ε α) := fun a b =>
  match a, b with
  | .error x, .error y =>
    if h : x = y then .isTrue (congrArg Except.error h)
    else .isFalse (fun hc => h (Except.error.inj hc))
  | .error _, .ok _ => .isFalse (fun hc => Except.noConfusion hc)
  | .ok _, .error _ => .isFalse (fun hc => Except.noConfusion hc)
  | .ok x, .ok y =>
    if h : x = y then .isTrue (congrArg Except.ok h)
    else .isFalse (fun hc => h (Except.ok.inj hc))

/-- An observable result of a `BlockStore` operation. -/
inductive Out where
  | blockOut (r : Except SErr Block)
  | headerOut (r : Except SErr Header)
  | txOut (r : Except SErr (Transaction × Nat))
  | boolOut (r : Except SErr Bool)
  | unitOut
deriving DecidableEq

/-- Execute one operation, returning the next store state and the
observable result. -/
def stepOp (s : BlockStore) : Op → BlockStore × Out
  | .saveBlock b => (s.SaveBlock b, .unitOut)
  | .commit => (s.CommitTo, .unitOut)
  | .getBlock h => (s, .blockOut (s.GetBlock h))
  | .getHeader h => (s, .headerOut (s.GetHeader h))
  | .getTx h => (s, .txOut (s.GetTransaction h))
  | .containBlock h => (s, .boolOut (s.ContainBlock h))
  | .containTx h => (s, .boolOut (s.ContainTransaction h))

/-- Run a sequence of operations, collecting the observable results. -/
def runOps (s : BlockStore) : List Op → List Out
  | [] => []
  | op :: rest =>
    let (s1, out) := stepOp s op
    out :: runOps s1 rest

/-- The externally-serialized batch discipline of the spec: every
`SaveBlock` is immediately committed before any further operation. -/
def committedOps : List Op → Bool
  | [] => true
  | .saveBlock _ :: .commit :: rest => committedOps rest
  | .saveBlock _ :: _ => false
  | _ :: rest => committedOps rest

/-- All blocks saved by the sequence are well-formed. -/
def wfOps : List Op → Bool
  | [] => true
  | .saveBlock b :: rest => decide (WFBlock b) && wfOps rest
  | _ :: rest => wfOps rest

/-- Cache coherence with the committed store: whatever the cache answers
could also have been reconstructed from the store alone. -/
def CacheOK (c : BlockCache) (st : KVStore) : Prop :=
  (∀ h b, c.GetBlock h = some b →
      loadHeaderWithTx st h = .ok (b.Header, b.Transactions.map Transaction.Hash)
        ∧ ∀ t ∈ b.Transactions, ∃ ht, loadTransactionData st t.Hash = .ok (t, ht))
    ∧ (∀ h r, c.GetTransaction h = some r → loadTransactionData st h = .ok r)

/-- The simulation relation between a cache-enabled store and a
cache-disabled store over the same committed data. -/
def Rel (sC sU : BlockStore) : Prop :=
  sC.enableCache = true ∧ sU.enableCache = false ∧ sC.store = sU.store
    ∧ sC.store.batch = [] ∧ sC.store.faults = [] ∧ CacheOK sC.cache sC.store

/-- A fresh `BlockStore` over initial committed data `d`
(`NewBlockStore` with the given cache flag). -/
def mkBlockStore (enable : Bool) (d : List (List Nat × List Nat)) : BlockStore :=
  { enableCache := enable, cache := emptyCache,
    store := { data := d, batch := [], faults := [] } }

/-- The batch entries staged by the transaction loop of `SaveBlock`, in
staging order. -/
def txKVs (height : Nat) : List Transaction → List (List Nat × List Nat)
  | [] => []
  | t :: ts => (getTransactionKey t.Hash, txValue height t) :: txKVs height ts

/-- All batch entries staged by `SaveBlock`: the header record then the
transaction records. -/
def blockKVs (b : Block) : List (List Nat × List Nat) :=
  (getHeaderKey b.Hash, headerValue b) :: txKVs b.Header.height b.Transactions

/-- The cache additions performed by the transaction loop of `SaveBlock`. -/
def addTxs (height : Nat) (ts : List Transaction) (c : BlockCache) : BlockCache :=
  ts.foldl (fun acc t => acc.AddTransaction t height) c

/-! ### Serialization round-trip lemmas -/

theorem takeU32_putU32 (n : Nat) (r : List Nat) :
    takeU32 (putU32 n ++ r) = some (n % 2 ^ 32, r) := by
  have h1 : n % 256 + 256 * (n / 256 % 256) = n % (256 * 256) :=
    (Nat.mod_mul).symm
  have h2 : n % (256 * 256) + 256 ^ 2 * (n / 256 ^ 2 % 256) = n % (256 ^ 2 * 256) := by
    have := (Nat.mod_mul (a := 256 ^ 2) (b := 256) (x := n)).symm
    simpa [pow_succ, Nat.div_div_eq_div_mul] using this
  have h3 : n % (256 ^ 2 * 256) + 256 ^ 3 * (n / 256 ^ 3 % 256) = n % (256 ^ 3 * 256) := by
    have := (Nat.mod_mul (a := 256 ^ 3) (b := 256) (x := n)).symm
    simpa [pow_succ, Nat.div_div_eq_div_mul] using this
  have : n % 256 + 256 * (n / 256 % 256) + 256 ^ 2 * (n / 256 ^ 2 % 256)
      + 256 ^ 3 * (n / 256 ^ 3 % 256) = n % 2 ^ 32 := by
    rw [h1, h2, h3]
    norm_num
  simp only [putU32, takeU32, List.cons_append, List.nil_append]
  rw [this]

theorem takeU32_putU32_of_lt {n : Nat} (h : n < 2 ^ 32) (r : List Nat) :
    takeU32 (putU32 n ++ r) = some (n, r) := by
  rw [takeU32_putU32, Nat.mod_eq_of_lt h]

theorem takeU64_putU64_of_lt {n : Nat} (h : n < 2 ^ 64) (r : List Nat) :
    takeU64 (putU64 n ++ r) = some (n, r) := by
  have hlo : n % 2 ^ 32 < 2 ^ 32 := Nat.mod_lt _ (by norm_num)
  have hhi : n / 2 ^ 32 < 2 ^ 32 := by
    apply Nat.div_lt_of_lt_mul
    calc n < 2 ^ 64 := h
    _ = 2 ^ 32 * 2 ^ 32 := by norm_num
  simp only [putU64, List.append_assoc, takeU64,
    takeU32_putU32_of_lt hlo, takeU32_putU32_of_lt hhi]
  rw [Nat.mod_add_div]

theorem takeN_append (xs r : List Nat) :
    takeN xs.length (xs ++ r) = some (xs, r) := by
  simp [takeN, List.take_left, List.drop_left]

theorem takeBytes_putBytes {xs : List Nat} (h : xs.length < 2 ^ 32) (r : List Nat) :
    takeBytes (putBytes xs ++ r) = some (xs, r) := by
  simp only [putBytes, List.append_assoc, takeBytes, takeU32_putU32_of_lt h]
  exact takeN_append xs r

theorem takeHeader_serialize {h : Header} (wf : WFHeader h) (r : List Nat) :
    takeHeader (h.serialize ++ r) = some (h, r) := by
  obtain ⟨w1, w2, w3, w4, w5, w6⟩ := wf
  simp only [Header.serialize, List.append_assoc, takeHeader,
    takeU32_putU32_of_lt w1, takeBytes_putBytes w2, takeBytes_putBytes w3,
    takeU32_putU32_of_lt w4, takeU64_putU64_of_lt w5, takeBytes_putBytes w6]

/-! ### Generic list lemmas -/

theorem find?_take {α : Type} {p : α → Bool} {x : α} :
    ∀ {n : Nat} {l : List α}, (l.take n).find? p = some x → l.find? p = some x := by
  intro n l
  induction l generalizing n with
  | nil => simp
  | cons a tl ih =>
    cases n with
    | zero => simp
    | succ m =>
      simp only [List.take_succ_cons]
      by_cases hp : p a
      · simp [List.find?_cons_of_pos _ hp]
      · simp only [List.find?_cons_of_neg _ hp]
        exact ih

/-! ### Claim C9: the keying discipline -/

/-- C9: every key the block store persists starts with a one-byte
record-type discriminant that is distinct per record type, so keys built
for two different record types are never equal, for any inputs. -/
theorem persisted_keys_no_cross_type_collision (h1 h2 : Hash) (n1 n2 : Nat) :
    getHeaderKey h1 ≠ getTransactionKey h2
    ∧ getHeaderKey h1 ≠ getBlockHashKey n1
    ∧ getHeaderKey h1 ≠ getCurrentBlockKey
    ∧ getHeaderKey h1 ≠ getVersionKey
    ∧ getTransactionKey h2 ≠ getBlockHashKey n1
    ∧ getTransactionKey h2 ≠ getCurrentBlockKey
    ∧ getTransactionKey h2 ≠ getVersionKey
    ∧ getBlockHashKey n1 ≠ getCurrentBlockKey
    ∧ getBlockHashKey n1 ≠ getVersionKey
    ∧ getCurrentBlockKey ≠ getVersionKey
    ∧ (getHeaderKey h1).head? = some DATA_HEADER
    ∧ (getTransactionKey h2).head? = some DATA_TRANSACTION
    ∧ (getBlockHashKey n2).head? = some DATA_BLOCK
    ∧ getCurrentBlockKey.head? = some SYS_CURRENT_BLOCK
    ∧ getVersionKey.head? = some SYS_VERSION := by
  refine ⟨?_, ?_, ?_, ?_, ?_, ?_, ?_, ?_, ?_, ?_, rfl, rfl, rfl, rfl, rfl⟩ <;>
    intro hc <;>
    simp [getHeaderKey, getTransactionKey, getBlockHashKey, getCurrentBlockKey,
      getVersionKey, DATA_HEADER, DATA_TRANSACTION, DATA_BLOCK, SYS_CURRENT_BLOCK,
      SYS_VERSION, putU32] at hc

/-! ### Claim C10: direct version write vs staged batch writes -/

/-- C10: `SaveVersion` writes through `store.Put` and is visible
immediately, while `SaveHeader`, `SaveTransaction`, `SaveCurrentBlock`
and `SaveBlockHash` only stage writes in the batch, leaving the persisted
data unchanged until `CommitTo` applies the batch. -/
theorem saveVersion_direct_other_saves_staged
    (s : BlockStore) (b : Block) (t : Transaction) (ver height : Nat) (bh : Hash)
    (hf : getVersionKey ∉ s.store.faults) :
    (s.SaveVersion ver).GetVersion = .ok ver
    ∧ (s.SaveVersion ver).store.data = (getVersionKey, [ver]) :: s.store.data
    ∧ (s.SaveHeader b).store.data = s.store.data
    ∧ (s.SaveTransaction t height).store.data = s.store.data
    ∧ (s.SaveCurrentBlock height bh).store.data = s.store.data
    ∧ (s.SaveBlockHash height bh).store.data = s.store.data
    ∧ (s.SaveBlockHash height bh).CommitTo.store.data
        = (getBlockHashKey height, bh) :: (s.store.batch.reverse ++ s.store.data) := by
  refine ⟨?_, rfl, rfl, ?_, rfl, rfl, ?_⟩
  · simp only [BlockStore.GetVersion, BlockStore.SaveVersion, KVStore.Put, KVStore.Get]
    rw [if_neg hf]
    simp [assocFind]
  · simp [BlockStore.SaveTransaction, BlockStore.putTransaction, KVStore.BatchPut]
    split <;> rfl
  · simp [BlockStore.SaveBlockHash, BlockStore.CommitTo, KVStore.BatchPut,
      KVStore.BatchCommit]

/-- Witness for C10 at a concrete store and inputs. -/
theorem saveVersion_direct_other_saves_staged_witness :
    getVersionKey ∉ (mkBlockStore false []).store.faults
    ∧ ((mkBlockStore false []).SaveVersion 3).GetVersion = .ok 3 := by
  have h : getVersionKey ∉ (mkBlockStore false []).store.faults := by
    simp [mkBlockStore]
  exact ⟨h, (saveVersion_direct_other_saves_staged (mkBlockStore false [])
    ⟨⟨0, [], [], 0, 0, []⟩, []⟩ ⟨[]⟩ 3 0 [] h).1⟩

/-! ### Claim C5: unregistered source chain -/

/-- C5: when the source chain has no side-chain record, or the record's
chain id differs from the requested one, `ImportExTransfer` fails with an
unregistered-chain error and no chain-handler capability is invoked. -/
theorem importExTransfer_unregistered_source
    (env : DispatchEnv) (params : EntranceParam)
    (h : GetSideChain env params.SourceChainID = .error .getSideChainErr
      ∨ ∃ sc, GetSideChain env params.SourceChainID = .ok sc
          ∧ sc.ChainId ≠ params.SourceChainID) :
    ∃ e, ImportExTransfer env params = (.error e, [])
      ∧ (e = .getSideChainErr ∨ e = .sideChainNotRegistered) := by
  rcases h with h | ⟨sc, hsc, hne⟩
  · exact ⟨.getSideChainErr, by simp only [ImportExTransfer, h], Or.inl rfl⟩
  · refine ⟨.sideChainNotRegistered, ?_, Or.inr rfl⟩
    simp only [ImportExTransfer, hsc]
    rw [if_pos hne]

/-- Witness for C5: source chain 5 is present but its record's chain id
is 6, so the call fails before any handler runs. -/
theorem importExTransfer_unregistered_source_witness :
    ∃ e, ImportExTransfer
        ⟨[(5, ⟨6⟩)], fun _ => .error .depositFailed, fun _ _ => .ok ()⟩ ⟨5, 1, 0⟩
        = (.error e, [])
      ∧ (e = .getSideChainErr ∨ e = .sideChainNotRegistered) :=
  importExTransfer_unregistered_source
    ⟨[(5, ⟨6⟩)], fun _ => .error .depositFailed, fun _ _ => .ok ()⟩ ⟨5, 1, 0⟩
    (Or.inr ⟨⟨6⟩, rfl, by decide⟩)

/-! ### Claim C1: target re-validation in `ImportExTransfer` -/

/-- Counterexample to C1 as stated: with registered source chain 1 (BTC)
the proof yields a deposit proposal declaring target chain 9, which is
not registered, yet `ImportExTransfer` returns success and never
validates the target nor calls `MakeTransaction` — the target pipeline
runs only for source chain ids 2 and 3. -/
theorem importExTransfer_skips_target_pipeline_for_btc :
    GetSideChain ⟨[(1, ⟨1⟩)], fun _ => .ok ⟨9, []⟩, fun _ _ => .ok ()⟩ 1 = .ok ⟨1⟩
    ∧ (⟨[(1, ⟨1⟩)], fun _ => .ok ⟨9, []⟩, fun _ _ => .ok ()⟩ : DispatchEnv).deposit 1
        = .ok ⟨9, []⟩
    ∧ GetSideChain ⟨[(1, ⟨1⟩)], fun _ => .ok ⟨9, []⟩, fun _ _ => .ok ()⟩ 9
        = .error .getSideChainErr
    ∧ ImportExTransfer ⟨[(1, ⟨1⟩)], fun _ => .ok ⟨9, []⟩, fun _ _ => .ok ()⟩ ⟨1, 9, 0⟩
        = (.ok (), [.depositCalled 1]) :=
  ⟨rfl, rfl, rfl, rfl⟩

/-- C1 (amended): for source chain ids 2 and 3, success of
`ImportExTransfer` implies every pipeline step succeeded — source
registration, proposal extraction, target registration on the proposal's
declared target chain, target handler resolution and `MakeTransaction` —
and the handler-invocation trace shows the deposit and the transaction
construction. -/
theorem importExTransfer_target_validation_for_account_chains
    (env : DispatchEnv) (params : EntranceParam)
    (hsrc : params.SourceChainID = 2 ∨ params.SourceChainID = 3)
    (hok : (ImportExTransfer env params).1 = .ok ()) :
    ∃ sc txp sc2, GetSideChain env params.SourceChainID = .ok sc
      ∧ sc.ChainId = params.SourceChainID
      ∧ env.deposit params.SourceChainID = .ok txp
      ∧ GetSideChain env txp.ToChainID = .ok sc2
      ∧ sc2.ChainId = txp.ToChainID
      ∧ GetChainHandler txp.ToChainID = .ok txp.ToChainID
      ∧ env.makeTx txp.ToChainID txp = .ok ()
      ∧ (ImportExTransfer env params).2
          = [.depositCalled params.SourceChainID,
             .makeTxCalled txp.ToChainID txp] := by
  unfold ImportExTransfer at hok
  split at hok
  · simp at hok
  next sc h1 =>
    split at hok
    · simp at hok
    next h2 =>
      split at hok
      · simp at hok
      next w h3 =>
        split at hok
        · simp at hok
        next txp h4 =>
          split at hok
          · simp at hok
          next sc2 h5 =>
            split at hok
            · simp at hok
            next h6 =>
              split at hok
              · simp at hok
              next w2 h7 =>
                split at hok
                · simp at hok
                next u h8 =>
                  have h2e : sc.ChainId = params.SourceChainID := not_not.mp h2
                  have h6e : sc2.ChainId = txp.ToChainID := not_not.mp h6
                  have hw2 : GetChainHandler txp.ToChainID = .ok txp.ToChainID := by
                    unfold GetChainHandler at h7 ⊢
                    split at h7
                    next hs => rw [if_pos hs]
                    next hs => simp at h7
                  have hu : u = () := rfl
                  refine ⟨sc, txp, sc2, h1, h2e, h4, h5, h6e, hw2, hu ▸ h8, ?_⟩
                  simp only [ImportExTransfer, h1, if_neg h2, h3, if_pos hsrc, h4, h5,
                    if_neg h6, h7, h8]

/-- Witness for the amended C1 at source chain 2 with registered target
chain 1. -/
theorem importExTransfer_target_validation_witness :
    ∃ sc txp sc2,
      GetSideChain ⟨[(2, ⟨2⟩), (1, ⟨1⟩)], fun _ => .ok ⟨1, []⟩, fun _ _ => .ok ()⟩ 2 = .ok sc
      ∧ sc.ChainId = 2
      ∧ (⟨[(2, ⟨2⟩), (1, ⟨1⟩)], fun _ => .ok ⟨1, []⟩, fun _ _ => .ok ()⟩ : DispatchEnv).deposit 2
          = .ok txp
      ∧ GetSideChain ⟨[(2, ⟨2⟩), (1, ⟨1⟩)], fun _ => .ok ⟨1, []⟩, fun _ _ => .ok ()⟩
          txp.ToChainID = .ok sc2
      ∧ sc2.ChainId = txp.ToChainID
      ∧ GetChainHandler txp.ToChainID = .ok txp.ToChainID
      ∧ (⟨[(2, ⟨2⟩), (1, ⟨1⟩)], fun _ => .ok ⟨1, []⟩, fun _ _ => .ok ()⟩ : DispatchEnv).makeTx
          txp.ToChainID txp = .ok ()
      ∧ (ImportExTransfer ⟨[(2, ⟨2⟩), (1, ⟨1⟩)], fun _ => .ok ⟨1, []⟩, fun _ _ => .ok ()⟩
          ⟨2, 1, 0⟩).2 = [.depositCalled 2, .makeTxCalled txp.ToChainID txp] :=
  importExTransfer_target_validation_for_account_chains
    ⟨[(2, ⟨2⟩), (1, ⟨1⟩)], fun _ => .ok ⟨1, []⟩, fun _ _ => .ok ()⟩ ⟨2, 1, 0⟩
    (Or.inl rfl) rfl

/-! ### Header-sync state lemmas -/

theorem headerAt_put_same (s : OntState) (hdr : OHeader) :
    headerAt (PutBlockHeader s hdr) hdr.ShardID hdr.Height = some hdr := by
  simp [headerAt, PutBlockHeader]

theorem headerAt_put_other (s : OntState) (hdr : OHeader) {c h : Nat}
    (hne : (c, h) ≠ (hdr.ShardID, hdr.Height)) :
    headerAt (PutBlockHeader s hdr) c h = headerAt s c h := by
  simp only [headerAt, PutBlockHeader]
  rw [List.find?_cons_of_neg]
  simp only [decide_eq_true_eq]
  exact fun heq => hne (heq ▸ rfl)

theorem headerAt_update (s : OntState) (hdr : OHeader) (c h : Nat) :
    headerAt (UpdateConsensusPeer s hdr) c h = headerAt s c h := by
  unfold UpdateConsensusPeer
  cases hdr.Rotation <;> rfl

theorem peerAt_put (s : OntState) (hdr : OHeader) (c h : Nat) :
    peerAt (PutBlockHeader s hdr) c h = peerAt s c h := rfl

theorem peerAt_update_rot (s : OntState) (hdr : OHeader) {ps : List Nat}
    (hrot : hdr.Rotation = some ps) :
    peerAt (UpdateConsensusPeer s hdr) hdr.ShardID hdr.Height = some ps := by
  simp [UpdateConsensusPeer, hrot, peerAt]

theorem peerAt_update_none (s : OntState) (hdr : OHeader)
    (hrot : hdr.Rotation = none) (c h : Nat) :
    peerAt (UpdateConsensusPeer s hdr) c h = peerAt s c h := by
  simp [UpdateConsensusPeer, hrot]

theorem peerAt_update_other (s : OntState) (hdr : OHeader) {c h : Nat}
    (hne : (c, h) ≠ (hdr.ShardID, hdr.Height)) :
    peerAt (UpdateConsensusPeer s hdr) c h = peerAt s c h := by
  unfold UpdateConsensusPeer
  cases hrot : hdr.Rotation with
  | none => rfl
  | some ps =>
    simp only [peerAt]
    rw [List.find?_cons_of_neg]
    simp only [decide_eq_true_eq]
    exact fun heq => hne (heq ▸ rfl)

theorem faults_put_update (s : OntState) (hdr : OHeader) :
    (UpdateConsensusPeer (PutBlockHeader s hdr) hdr).faults = s.faults := by
  unfold UpdateConsensusPeer PutBlockHeader
  cases hdr.Rotation <;> rfl

theorem getHeaderByHeight_no_fault (s : OntState) (c h : Nat)
    (hfa : s.faults = []) :
    GetHeaderByHeight s c h
      = match headerAt s c h with
        | some hdr => .ok hdr
        | none => .error .notFound := by
  unfold GetHeaderByHeight
  rw [if_neg (by simp [hfa])]

/-! ### Claim C2: duplicate headers are rejected without overwrite -/

/-- Any occupied (chain, height) keeps its stored header across any
`syncLoop` run on fault-free storage: foreign headers are append-only. -/
theorem syncLoop_headerAt_occupied (l : List (Option OHeader)) :
    ∀ s : OntState, s.faults = [] → ∀ c h hdr0, headerAt s c h = some hdr0 →
      headerAt (syncLoop s l).2 c h = some hdr0 := by
  induction l with
  | nil => intro s _ c h hdr0 hocc; simpa [syncLoop] using hocc
  | cons x tl ih =>
    intro s hfa c h hdr0 hocc
    cases x with
    | none => simpa [syncLoop] using hocc
    | some hdr =>
      simp only [syncLoop]
      cases hg : GetHeaderByHeight s hdr.ShardID hdr.Height with
      | ok found => simpa using hocc
      | error e =>
        cases hv : verifyHeader s hdr with
        | error e2 => simpa using hocc
        | ok u =>
          have hne : (c, h) ≠ (hdr.ShardID, hdr.Height) := by
            intro heq
            rw [getHeaderByHeight_no_fault s _ _ hfa] at hg
            rw [Prod.mk.injEq] at heq
            rw [← heq.1, ← heq.2, hocc] at hg
            simp at hg
          apply ih
          · rw [faults_put_update, hfa]
          · rw [headerAt_update, headerAt_put_other s hdr hne]
            exact hocc

/-- C2: on fault-free storage, once a header is accepted at (chain C,
height h), a later `SyncBlockHeader` call submitting a header for (C, h)
fails with the duplicate error and returns the state unchanged — the
stored header at (C, h) and the consensus-peer sets are untouched — and
no `SyncBlockHeader` call whatsoever can replace the stored header at an
occupied (chain, height). -/
theorem syncBlockHeader_duplicate_rejected
    (s : OntState) (c h addr : Nat) (hdr0 dup : OHeader) (rest : List (Option OHeader))
    (hfa : s.faults = [])
    (hocc : headerAt s c h = some hdr0)
    (hc : dup.ShardID = c) (hh : dup.Height = h) :
    SyncBlockHeader s ⟨addr, some dup :: rest⟩ = (.error (.dup c h), s)
    ∧ ∀ params, headerAt (SyncBlockHeader s params).2 c h = some hdr0 := by
  constructor
  · unfold SyncBlockHeader
    simp only [syncLoop]
    rw [hc, hh, getHeaderByHeight_no_fault s c h hfa, hocc]
  · intro params
    exact syncLoop_headerAt_occupied params.Headers s hfa c h hdr0 hocc

/-- Witness for C2 at a concrete occupied state and resubmitted header. -/
theorem syncBlockHeader_duplicate_rejected_witness :
    (⟨[((7, 5), ⟨7, 5, 42, none⟩)], [((7, 0), [42])], []⟩ : OntState).faults = []
    ∧ headerAt ⟨[((7, 5), ⟨7, 5, 42, none⟩)], [((7, 0), [42])], []⟩ 7 5
        = some ⟨7, 5, 42, none⟩
    ∧ SyncBlockHeader ⟨[((7, 5), ⟨7, 5, 42, none⟩)], [((7, 0), [42])], []⟩
        ⟨0, [some ⟨7, 5, 42, none⟩]⟩
      = (.error (.dup 7 5), ⟨[((7, 5), ⟨7, 5, 42, none⟩)], [((7, 0), [42])], []⟩) := by
  refine ⟨rfl, by decide, ?_⟩
  exact (syncBlockHeader_duplicate_rejected
    ⟨[((7, 5), ⟨7, 5, 42, none⟩)], [((7, 0), [42])], []⟩ 7 5 0
    ⟨7, 5, 42, none⟩ ⟨7, 5, 42, none⟩ [] rfl (by decide) rfl rfl).1

/-! ### Claim C3: no observable partial application in header sync -/

/-- The pairing invariant is preserved by the whole per-header loop on
fault-free storage: the header write and its peer-set update are applied
together per header, and every failure happens before any write for the
failing header. -/
theorem syncLoop_preserves_syncInv (l : List (Option OHeader)) :
    ∀ s : OntState, s.faults = [] → syncInv s → syncInv (syncLoop s l).2 := by
  induction l with
  | nil => intro s _ hinv; simpa [syncLoop] using hinv
  | cons x tl ih =>
    intro s hfa hinv
    cases x with
    | none => simpa [syncLoop] using hinv
    | some hdr =>
      simp only [syncLoop]
      cases hg : GetHeaderByHeight s hdr.ShardID hdr.Height with
      | ok found => simpa using hinv
      | error e =>
        cases hv : verifyHeader s hdr with
        | error e2 => simpa using hinv
        | ok u =>
          have hfresh : headerAt s hdr.ShardID hdr.Height = none := by
            rw [getHeaderByHeight_no_fault s _ _ hfa] at hg
            cases hcase : headerAt s hdr.ShardID hdr.Height with
            | none => rfl
            | some z => rw [hcase] at hg; simp at hg
          apply ih
          · rw [faults_put_update, hfa]
          · intro c h
            by_cases hk : (c, h) = (hdr.ShardID, hdr.Height)
            · rw [Prod.mk.injEq] at hk
              obtain ⟨hc1, hc2⟩ := hk
              subst hc1
              subst hc2
              rw [headerAt_update, headerAt_put_same]
              cases hrot : hdr.Rotation with
              | some ps => rw [peerAt_update_rot _ _ hrot]; simp [hrot]
              | none =>
                rw [peerAt_update_none _ _ hrot, peerAt_put]
                have := hinv hdr.ShardID hdr.Height
                rw [hfresh] at this
                simp only [hrot, Option.bind]
                simpa using this
            · rw [headerAt_update, headerAt_put_other s hdr hk,
                peerAt_update_other _ _ hk, peerAt_put]
              exact hinv c h

/-- C3: on fault-free storage a `SyncBlockHeader` call — succeeding or
failing at any step — never leaves a header stored without its
corresponding peer-set update applied, or a peer-set entry without its
header: the pairing invariant holds of the state the handler leaves
behind. -/
theorem syncBlockHeader_no_partial_application
    (s : OntState) (params : SyncBlockHeaderParam)
    (hfa : s.faults = []) (hinv : syncInv s) :
    syncInv (SyncBlockHeader s params).2 :=
  syncLoop_preserves_syncInv params.Headers s hfa hinv

/-- Witness for C3 from the empty sync state. -/
theorem syncBlockHeader_no_partial_application_witness :
    (⟨[], [], []⟩ : OntState).faults = []
    ∧ syncInv ⟨[], [], []⟩
    ∧ syncInv (SyncBlockHeader ⟨[], [], []⟩ ⟨0, [some ⟨7, 5, 42, none⟩]⟩).2 := by
  have hinv : syncInv (⟨[], [], []⟩ : OntState) := by
    intro c h
    simp [peerAt, headerAt]
  exact ⟨rfl, hinv,
    syncBlockHeader_no_partial_application ⟨[], [], []⟩ ⟨0, [some ⟨7, 5, 42, none⟩]⟩ rfl hinv⟩

/-! ### Claim C8: substrate failures and their propagation -/

/-- Counterexample to C8 as stated: `SyncBlockHeader`'s duplicate check
treats any lookup error as absence (`if err == nil` in the source), so a
substrate I/O failure on the duplicate-check read is swallowed — here the
read of occupied (7, 5) fails with an I/O error, yet the call reports
success and even replaces the stored header. -/
theorem syncBlockHeader_swallows_io_failure :
    GetHeaderByHeight ⟨[((7, 5), ⟨7, 5, 43, none⟩)], [((7, 0), [42])], [(7, 5)]⟩ 7 5
      = .error .io
    ∧ headerAt ⟨[((7, 5), ⟨7, 5, 43, none⟩)], [((7, 0), [42])], [(7, 5)]⟩ 7 5
        = some ⟨7, 5, 43, none⟩
    ∧ (SyncBlockHeader ⟨[((7, 5), ⟨7, 5, 43, none⟩)], [((7, 0), [42])], [(7, 5)]⟩
        ⟨0, [some ⟨7, 5, 42, none⟩]⟩).1 = .ok ()
    ∧ headerAt (SyncBlockHeader ⟨[((7, 5), ⟨7, 5, 43, none⟩)], [((7, 0), [42])], [(7, 5)]⟩
        ⟨0, [some ⟨7, 5, 42, none⟩]⟩).2 7 5 = some ⟨7, 5, 42, none⟩ := by
  refine ⟨by decide, by decide, by decide, by decide⟩

/-- C8 (amended): the block store itself never swallows a substrate
failure: when a point read fails with an I/O error, `ContainBlock`,
`ContainTransaction`, `GetHeader`, `GetTransaction` and `GetBlock`
propagate the error instead of reporting mere absence. -/
theorem blockStore_propagates_io_failures
    (s : BlockStore) (h : Hash)
    (hcb : s.enableCache = false)
    (hB : getHeaderKey h ∈ s.store.faults)
    (hT : getTransactionKey h ∈ s.store.faults) :
    s.ContainBlock h = .error .io
    ∧ s.ContainTransaction h = .error .io
    ∧ s.GetHeader h = .error .io
    ∧ s.GetTransaction h = .error .io
    ∧ s.GetBlock h = .error .io := by
  have hgB : s.store.Get (getHeaderKey h) = .error .io := by
    unfold KVStore.Get; rw [if_pos hB]
  have hgT : s.store.Get (getTransactionKey h) = .error .io := by
    unfold KVStore.Get; rw [if_pos hT]
  refine ⟨?_, ?_, ?_, ?_, ?_⟩
  · unfold BlockStore.ContainBlock
    rw [hcb]
    simp [hgB]
  · unfold BlockStore.ContainTransaction
    rw [hcb]
    simp [hgT]
  · unfold BlockStore.GetHeader
    rw [hcb]
    simp [loadHeader, hgB]
  · unfold BlockStore.GetTransaction BlockStore.loadTransaction
    rw [hcb]
    simp [loadTransactionData, hgT]
  · unfold BlockStore.GetBlock BlockStore.GetBlockFromStore
    rw [hcb]
    simp [loadHeaderWithTx, hgB]

/-- Witness for the amended C8 at a concrete faulted store. -/
theorem blockStore_propagates_io_failures_witness :
    (⟨false, emptyCache, ⟨[], [], [getHeaderKey [9], getTransactionKey [9]]⟩⟩
        : BlockStore).ContainBlock [9] = .error .io
    ∧ (⟨false, emptyCache, ⟨[], [], [getHeaderKey [9], getTransactionKey [9]]⟩⟩
        : BlockStore).GetBlock [9] = .error .io := by
  have hall := blockStore_propagates_io_failures
    ⟨false, emptyCache, ⟨[], [], [getHeaderKey [9], getTransactionKey [9]]⟩⟩ [9]
    rfl (by decide) (by decide)
  exact ⟨hall.1, hall.2.2.2.2⟩

/-! ### SaveBlock write-set characterization -/

theorem addTxs_blocks (height : Nat) (ts : List Transaction) :
    ∀ c : BlockCache, (addTxs height ts c).blocks = c.blocks := by
  induction ts with
  | nil => intro c; rfl
  | cons t tl ih =>
    intro c
    simp only [addTxs, List.foldl_cons]
    exact ih (c.AddTransaction t height)

theorem foldl_saveTx_store (height : Nat) (ts : List Transaction) :
    ∀ s : BlockStore,
      (ts.foldl (fun acc t => acc.SaveTransaction t height) s).store
        = { s.store with batch := s.store.batch ++ txKVs height ts } := by
  induction ts with
  | nil => intro s; simp [txKVs]
  | cons t tl ih =>
    intro s
    rw [List.foldl_cons, ih]
    unfold BlockStore.SaveTransaction BlockStore.putTransaction KVStore.BatchPut
    by_cases hc : s.enableCache
    · simp [hc, txKVs]
    · simp [hc, txKVs]

theorem foldl_saveTx_enableCache (height : Nat) (ts : List Transaction) :
    ∀ s : BlockStore,
      (ts.foldl (fun acc t => acc.SaveTransaction t height) s).enableCache
        = s.enableCache := by
  induction ts with
  | nil => intro s; rfl
  | cons t tl ih =>
    intro s
    rw [List.foldl_cons, ih]
    unfold BlockStore.SaveTransaction BlockStore.putTransaction
    by_cases hc : s.enableCache <;> simp [hc]

theorem foldl_saveTx_cache_true (height : Nat) (ts : List Transaction) :
    ∀ s : BlockStore, s.enableCache = true →
      (ts.foldl (fun acc t => acc.SaveTransaction t height) s).cache
        = addTxs height ts s.cache := by
  induction ts with
  | nil => intro s _; rfl
  | cons t tl ih =>
    intro s hc
    rw [List.foldl_cons]
    have hc2 : (s.SaveTransaction t height).enableCache = s.enableCache := by
      unfold BlockStore.SaveTransaction BlockStore.putTransaction
      by_cases h : s.enableCache <;> simp [h]
    rw [ih _ (by rw [hc2, hc])]
    unfold BlockStore.SaveTransaction BlockStore.putTransaction
    simp [hc, addTxs]

theorem foldl_saveTx_cache_false (height : Nat) (ts : List Transaction) :
    ∀ s : BlockStore, s.enableCache = false →
      (ts.foldl (fun acc t => acc.SaveTransaction t height) s).cache = s.cache := by
  induction ts with
  | nil => intro s _; rfl
  | cons t tl ih =>
    intro s hc
    rw [List.foldl_cons]
    have hc2 : (s.SaveTransaction t height).enableCache = s.enableCache := by
      unfold BlockStore.SaveTransaction BlockStore.putTransaction
      by_cases h : s.enableCache <;> simp [h]
    rw [ih _ (by rw [hc2, hc])]
    unfold BlockStore.SaveTransaction BlockStore.putTransaction
    simp [hc]

theorem saveBlock_store (s : BlockStore) (b : Block) :
    (s.SaveBlock b).store = { s.store with batch := s.store.batch ++ blockKVs b } := by
  unfold BlockStore.SaveBlock
  rw [foldl_saveTx_store]
  unfold BlockStore.SaveHeader KVStore.BatchPut
  by_cases hc : s.enableCache <;> simp [hc, blockKVs]

theorem saveBlock_enableCache (s : BlockStore) (b : Block) :
    (s.SaveBlock b).enableCache = s.enableCache := by
  unfold BlockStore.SaveBlock
  rw [foldl_saveTx_enableCache]
  unfold BlockStore.SaveHeader
  by_cases hc : s.enableCache <;> simp [hc]

theorem saveBlock_cache_true (s : BlockStore) (b : Block) (hc : s.enableCache = true) :
    (s.SaveBlock b).cache
      = addTxs b.Header.height b.Transactions (s.cache.AddBlock b) := by
  unfold BlockStore.SaveBlock
  rw [foldl_saveTx_cache_true]
  · unfold BlockStore.SaveHeader
    simp [hc]
  · unfold BlockStore.SaveHeader
    simp [hc]

theorem saveBlock_cache_false (s : BlockStore) (b : Block) (hc : s.enableCache = false) :
    (s.SaveBlock b).cache = s.cache := by
  unfold BlockStore.SaveBlock
  rw [foldl_saveTx_cache_false]
  · unfold BlockStore.SaveHeader
    simp [hc]
  · unfold BlockStore.SaveHeader
    simp [hc]

theorem commit_saveBlock_store (s : BlockStore) (b : Block) :
    ((s.SaveBlock b).CommitTo).store
      = ⟨(blockKVs b).reverse ++ (s.store.batch.reverse ++ s.store.data), [],
          s.store.faults⟩ := by
  unfold BlockStore.CommitTo KVStore.BatchCommit
  rw [saveBlock_store]
  simp [List.reverse_append]

/-! ### Reading the committed write set -/

theorem find?_key_all_same {β : Type} {l : List (List Nat × β)} {k : List Nat} {v : β}
    (hex : ∃ kv ∈ l, kv.1 = k)
    (hall : ∀ kv ∈ l, kv.1 = k → kv = (k, v)) :
    l.find? (fun e => decide (e.1 = k)) = some (k, v) := by
  induction l with
  | nil => simp at hex
  | cons a tl ih =>
    by_cases ha : a.1 = k
    · rw [List.find?_cons_of_pos _ (by simpa using ha)]
      rw [hall a (List.mem_cons_self a tl) ha]
    · rw [List.find?_cons_of_neg _ (by simpa using ha)]
      apply ih
      · rcases hex with ⟨kv, hm, hk⟩
        rcases List.mem_cons.mp hm with rfl | hm2
        · exact absurd hk ha
        · exact ⟨kv, hm2, hk⟩
      · intro kv hm hk
        exact hall kv (List.mem_cons_of_mem a hm) hk

theorem mem_txKVs {height : Nat} {ts : List Transaction} {kv : List Nat × List Nat} :
    kv ∈ txKVs height ts ↔ ∃ t ∈ ts, kv = (getTransactionKey t.Hash, txValue height t) := by
  induction ts with
  | nil => simp [txKVs]
  | cons t tl ih =>
    simp only [txKVs, List.mem_cons, ih]
    constructor
    · rintro (rfl | ⟨t2, hm, rfl⟩)
      · exact ⟨t, Or.inl rfl, rfl⟩
      · exact ⟨t2, Or.inr hm, rfl⟩
    · rintro ⟨t2, hm | hm, rfl⟩
      · rw [hm]
        exact Or.inl rfl
      · exact Or.inr ⟨t2, hm, rfl⟩

theorem find?_header_txKVs_none (height : Nat) (ts : List Transaction) (h : Hash) :
    ((txKVs height ts).reverse).find? (fun e => decide (e.1 = getHeaderKey h)) = none := by
  rw [List.find?_eq_none]
  intro kv hm
  rw [List.mem_reverse] at hm
  obtain ⟨t, _, rfl⟩ := mem_txKVs.mp hm
  simp [getTransactionKey, getHeaderKey, DATA_TRANSACTION, DATA_HEADER]

theorem assocFind_committed_header (b : Block) (rest : List (List Nat × List Nat)) :
    assocFind ((blockKVs b).reverse ++ rest) (getHeaderKey b.Hash)
      = some (headerValue b) := by
  unfold assocFind blockKVs
  rw [List.reverse_cons, List.append_assoc, List.find?_append,
    find?_header_txKVs_none]
  simp

theorem assocFind_committed_tx (b : Block) (rest : List (List Nat × List Nat))
    {t : Transaction} (htm : t ∈ b.Transactions) :
    assocFind ((blockKVs b).reverse ++ rest) (getTransactionKey t.Hash)
      = some (txValue b.Header.height t) := by
  unfold assocFind blockKVs
  rw [List.reverse_cons, List.append_assoc, List.find?_append]
  have hfind : (txKVs b.Header.height b.Transactions).reverse.find?
      (fun e => decide (e.1 = getTransactionKey t.Hash))
      = some (getTransactionKey t.Hash, txValue b.Header.height t) := by
    apply find?_key_all_same
    · exact ⟨(getTransactionKey t.Hash, txValue b.Header.height t),
        List.mem_reverse.mpr (mem_txKVs.mpr ⟨t, htm, rfl⟩), rfl⟩
    · intro kv hm hk
      rw [List.mem_reverse] at hm
      obtain ⟨t2, _, rfl⟩ := mem_txKVs.mp hm
      have hraw : t2.Raw = t.Raw := by
        simpa [getTransactionKey, Transaction.Hash] using hk
      simp [txValue, getTransactionKey, Transaction.Hash, hraw]
  rw [hfind]
  rfl

theorem assocFind_committed_other (b : Block) (rest : List (List Nat × List Nat))
    (k : List Nat)
    (hh : k ≠ getHeaderKey b.Hash)
    (ht : ∀ t ∈ b.Transactions, k ≠ getTransactionKey t.Hash) :
    assocFind ((blockKVs b).reverse ++ rest) k = assocFind rest k := by
  unfold assocFind
  rw [List.find?_append]
  have hnone : (blockKVs b).reverse.find? (fun e => decide (e.1 = k)) = none := by
    rw [List.find?_eq_none]
    intro kv hm
    rw [List.mem_reverse] at hm
    unfold blockKVs at hm
    rcases List.mem_cons.mp hm with rfl | hm2
    · simpa using (Ne.symm hh)
    · obtain ⟨t, hm3, rfl⟩ := mem_txKVs.mp hm2
      simpa using (Ne.symm (ht t hm3))
  rw [hnone]
  rfl

/-! ### Parsing the committed records back -/

theorem takeHashes_txHashesBytes {ts : List Transaction}
    (hlen : ∀ t ∈ ts, t.Raw.length < 2 ^ 32) (r : List Nat) :
    takeHashes ts.length (txHashesBytes ts ++ r)
      = some (ts.map Transaction.Hash, r) := by
  induction ts with
  | nil => simp [takeHashes, txHashesBytes]
  | cons t tl ih =>
    have hb : (Transaction.Hash t).length < 2 ^ 32 := hlen t (by simp)
    simp only [txHashesBytes, List.length_cons, takeHashes, List.append_assoc,
      takeBytes_putBytes hb, ih (fun t2 h2 => hlen t2 (by simp [h2])), List.map_cons]

theorem loadHeaderWithTx_value (st : KVStore) (b : Block) (wf : WFBlock b)
    (hget : st.Get (getHeaderKey b.Hash) = .ok (headerValue b)) :
    loadHeaderWithTx st b.Hash = .ok (b.Header, b.Transactions.map Transaction.Hash) := by
  obtain ⟨wfh, wlen, wtx⟩ := wf
  have hparse := takeHashes_txHashesBytes wtx []
  rw [List.append_nil] at hparse
  simp only [loadHeaderWithTx, hget, headerValue, List.append_assoc,
    takeHeader_serialize wfh, takeU32_putU32_of_lt wlen, hparse]

theorem loadTransactionData_value (st : KVStore) (t : Transaction) (height : Nat)
    (hlt : height < 2 ^ 32)
    (hget : st.Get (getTransactionKey t.Hash) = .ok (txValue height t)) :
    loadTransactionData st t.Hash = .ok (t, height) := by
  simp only [loadTransactionData, hget, txValue, takeU32_putU32_of_lt hlt]

theorem getTransaction_pure (s : BlockStore) (txh : Hash)
    (h : s.enableCache = false ∨ CacheOK s.cache s.store) :
    s.GetTransaction txh = loadTransactionData s.store txh := by
  rcases h with hc | hok
  · simp [BlockStore.GetTransaction, BlockStore.loadTransaction, hc]
  · by_cases hc : s.enableCache
    · simp only [BlockStore.GetTransaction, BlockStore.loadTransaction, hc, if_true]
      cases hfind : s.cache.GetTransaction txh with
      | some r => exact (hok.2 txh r hfind).symm
      | none => rfl
    · simp [BlockStore.GetTransaction, BlockStore.loadTransaction, hc]

theorem getBlockTxLoop_ok (s : BlockStore)
    (hpure : ∀ txh, s.GetTransaction txh = loadTransactionData s.store txh) :
    ∀ ts : List Transaction,
      (∀ t ∈ ts, ∃ h2, loadTransactionData s.store t.Hash = .ok (t, h2)) →
      getBlockTxLoop s (ts.map Transaction.Hash) = .ok ts := by
  intro ts
  induction ts with
  | nil => intro _; rfl
  | cons t tl ih =>
    intro hload
    obtain ⟨h2, hload1⟩ := hload t (by simp)
    simp only [List.map_cons, getBlockTxLoop, hpure, hload1,
      ih (fun t2 hm => hload t2 (by simp [hm]))]

theorem getBlockFromStore_ok (s : BlockStore) (h : Hash) (b : Block)
    (hpure : ∀ txh, s.GetTransaction txh = loadTransactionData s.store txh)
    (hhdr : loadHeaderWithTx s.store h = .ok (b.Header, b.Transactions.map Transaction.Hash))
    (htx : ∀ t ∈ b.Transactions, ∃ h2, loadTransactionData s.store t.Hash = .ok (t, h2)) :
    s.GetBlockFromStore h = .ok b := by
  simp only [BlockStore.GetBlockFromStore, hhdr, getBlockTxLoop_ok s hpure _ htx]

theorem cacheGetBlock_addBlock (c : BlockCache) (b : Block) :
    (c.AddBlock b).GetBlock b.Hash = some b := by
  unfold BlockCache.AddBlock BlockCache.GetBlock
  rw [show BLOCK_CACHE_SIZE = 255 + 1 from rfl, List.take_succ_cons,
    List.find?_cons_of_pos _ (by simp)]
  rfl

/-! ### Claim C4: SaveBlock / GetBlock round trip -/

theorem getBlock_after_saveBlock_commit (s : BlockStore) (b : Block)
    (wf : WFBlock b) (hfa : s.store.faults = []) :
    ((s.SaveBlock b).CommitTo).GetBlock b.Hash = .ok b := by
  have hstore := commit_saveBlock_store s b
  have hnof : ((s.SaveBlock b).CommitTo).store.faults = [] := by rw [hstore, hfa]
  have hget : ((s.SaveBlock b).CommitTo).store.Get (getHeaderKey b.Hash)
      = .ok (headerValue b) := by
    unfold KVStore.Get
    rw [hnof, hstore]
    simp only [List.not_mem_nil, if_false]
    rw [assocFind_committed_header]
  have hgetT : ∀ t ∈ b.Transactions,
      ((s.SaveBlock b).CommitTo).store.Get (getTransactionKey t.Hash)
        = .ok (txValue b.Header.height t) := by
    intro t hm
    unfold KVStore.Get
    rw [hnof, hstore]
    simp only [List.not_mem_nil, if_false]
    rw [assocFind_committed_tx _ _ hm]
  have hhdr := loadHeaderWithTx_value _ b wf hget
  have htx : ∀ t ∈ b.Transactions,
      ∃ h2, loadTransactionData ((s.SaveBlock b).CommitTo).store t.Hash
        = .ok (t, h2) :=
    fun t hm => ⟨b.Header.height,
      loadTransactionData_value _ t _ wf.1.1 (hgetT t hm)⟩
  have hen : ((s.SaveBlock b).CommitTo).enableCache = s.enableCache := by
    unfold BlockStore.CommitTo
    exact saveBlock_enableCache s b
  have hca : ((s.SaveBlock b).CommitTo).cache = (s.SaveBlock b).cache := rfl
  by_cases hc : s.enableCache
  · have hcache : ((s.SaveBlock b).CommitTo).cache.GetBlock b.Hash = some b := by
      rw [hca, saveBlock_cache_true s b hc]
      unfold BlockCache.GetBlock
      rw [addTxs_blocks]
      exact cacheGetBlock_addBlock s.cache b
    unfold BlockStore.GetBlock
    rw [hen]
    simp [hc, hcache]
  · have hcf : ((s.SaveBlock b).CommitTo).enableCache = false := by
      rw [hen]
      exact Bool.not_eq_true _ ▸ (by simpa using hc)
    have hpure : ∀ txh, ((s.SaveBlock b).CommitTo).GetTransaction txh
        = loadTransactionData ((s.SaveBlock b).CommitTo).store txh :=
      fun txh => getTransaction_pure _ txh (Or.inl hcf)
    unfold BlockStore.GetBlock
    rw [hcf]
    simp only [Bool.false_eq_true, if_false]
    exact getBlockFromStore_ok _ _ b hpure hhdr htx

/-- C4: after `SaveBlock(B)` and the commit of its batch, `GetBlock` at
the hash of B returns a block equal to B — the same header and the same
transaction list in the same order — whether or not the cache is
enabled. -/
theorem saveBlock_commit_getBlock_roundtrip (s : BlockStore) (b : Block)
    (wf : WFBlock b) (hfa : s.store.faults = []) :
    ((s.SaveBlock b).CommitTo).GetBlock b.Hash = .ok b :=
  getBlock_after_saveBlock_commit s b wf hfa

/-- Witness for C4 on a fresh store and a two-transaction block. -/
theorem saveBlock_commit_getBlock_roundtrip_witness :
    WFBlock ⟨⟨1, [7], [8], 2, 3, [9]⟩, [⟨[5]⟩, ⟨[6, 6]⟩]⟩
    ∧ (mkBlockStore false []).store.faults = []
    ∧ (((mkBlockStore false []).SaveBlock
          ⟨⟨1, [7], [8], 2, 3, [9]⟩, [⟨[5]⟩, ⟨[6, 6]⟩]⟩).CommitTo).GetBlock
        (Block.Hash ⟨⟨1, [7], [8], 2, 3, [9]⟩, [⟨[5]⟩, ⟨[6, 6]⟩]⟩)
      = .ok ⟨⟨1, [7], [8], 2, 3, [9]⟩, [⟨[5]⟩, ⟨[6, 6]⟩]⟩ := by
  refine ⟨by decide, rfl, ?_⟩
  exact saveBlock_commit_getBlock_roundtrip (mkBlockStore false [])
    ⟨⟨1, [7], [8], 2, 3, [9]⟩, [⟨[5]⟩, ⟨[6, 6]⟩]⟩ (by decide) rfl

/-! ### Claim C6: a missing referenced transaction is fatal -/

theorem getBlockTxLoop_fails (s : BlockStore) (t : Hash)
    (hfail : ∃ e, s.GetTransaction t = .error e) :
    ∀ hs : List Hash, t ∈ hs →
      getBlockTxLoop s hs = .error (.other "GetTransaction error") := by
  intro hs
  induction hs with
  | nil => intro hm; simp at hm
  | cons h1 rest ih =>
    intro hm
    unfold getBlockTxLoop
    cases hg : s.GetTransaction h1 with
    | error e => rfl
    | ok r =>
      have hm2 : t ∈ rest := by
        rcases List.mem_cons.mp hm with rfl | hm2
        · obtain ⟨e, he⟩ := hfail
          rw [hg] at he
          simp at he
        · exact hm2
      rw [ih hm2]

/-- C6: when the stored header record for a block hash references a
transaction hash that is absent from the store (and the cache holds
neither the block nor that transaction), `GetBlock` fails with the
formatted fatal error — a condition distinct from `NotFound` — rather
than returning a partial block. -/
theorem getBlock_missing_tx_fatal (s : BlockStore) (bh : Hash)
    (hdr : Header) (hs : List Hash) (t : Hash)
    (hcb : s.enableCache = true → s.cache.GetBlock bh = none)
    (hct : s.enableCache = true → s.cache.GetTransaction t = none)
    (hload : loadHeaderWithTx s.store bh = .ok (hdr, hs))
    (htm : t ∈ hs)
    (habs : s.store.Get (getTransactionKey t) = .error .notFound) :
    s.GetBlock bh = .error (.other "GetTransaction error")
    ∧ (SErr.other "GetTransaction error") ≠ .notFound
    ∧ ∀ b, s.GetBlock bh ≠ .ok b := by
  have hfail : ∃ e, s.GetTransaction t = .error e := by
    refine ⟨.notFound, ?_⟩
    unfold BlockStore.GetTransaction BlockStore.loadTransaction
    by_cases hc : s.enableCache
    · simp only [hc, if_true, hct hc]
      simp only [loadTransactionData, habs]
    · simp only [hc, Bool.false_eq_true, if_false]
      simp only [loadTransactionData, habs]
  have hrun : s.GetBlock bh = .error (.other "GetTransaction error") := by
    unfold BlockStore.GetBlock BlockStore.GetBlockFromStore
    by_cases hc : s.enableCache
    · simp only [hc, if_true, hcb hc, hload, getBlockTxLoop_fails s t hfail hs htm]
    · simp only [hc, Bool.false_eq_true, if_false, hload,
        getBlockTxLoop_fails s t hfail hs htm]
  refine ⟨hrun, by simp, ?_⟩
  intro b hb
  rw [hrun] at hb
  simp at hb

/-- Witness for C6: a store holding a header record that references
transaction hash `[5]`, which has no transaction record. -/
theorem getBlock_missing_tx_fatal_witness :
    loadHeaderWithTx (⟨[(getHeaderKey (Block.Hash ⟨⟨0, [], [], 0, 0, []⟩, [⟨[5]⟩]⟩),
          headerValue ⟨⟨0, [], [], 0, 0, []⟩, [⟨[5]⟩]⟩)], [], []⟩ : KVStore)
        (Block.Hash ⟨⟨0, [], [], 0, 0, []⟩, [⟨[5]⟩]⟩)
      = .ok (⟨0, [], [], 0, 0, []⟩, [[5]])
    ∧ (⟨false, emptyCache,
        ⟨[(getHeaderKey (Block.Hash ⟨⟨0, [], [], 0, 0, []⟩, [⟨[5]⟩]⟩),
          headerValue ⟨⟨0, [], [], 0, 0, []⟩, [⟨[5]⟩]⟩)], [], []⟩⟩ : BlockStore).GetBlock
        (Block.Hash ⟨⟨0, [], [], 0, 0, []⟩, [⟨[5]⟩]⟩)
      = .error (.other "GetTransaction error") := by
  refine ⟨by decide, ?_⟩
  exact (getBlock_missing_tx_fatal _ _ ⟨0, [], [], 0, 0, []⟩ [[5]] [5]
    (fun hct => by simp at hct) (fun hct => by simp at hct)
    (by decide) (by decide) (by decide)).1

/-! ### Cache coherence machinery for claim C7 -/

theorem kvGet_no_fault (s : KVStore) (k : List Nat) (hfa : s.faults = []) :
    s.Get k = match assocFind s.data k with
      | some v => .ok v
      | none => .error .notFound := by
  unfold KVStore.Get
  rw [if_neg (by rw [hfa]; simp)]

theorem batchCommit_empty (s : KVStore) (hb : s.batch = []) :
    s.BatchCommit = s := by
  cases s with
  | mk d b f =>
    simp only at hb
    subst hb
    simp [KVStore.BatchCommit]

theorem cacheGetTransaction_addBlock (c : BlockCache) (b : Block) (h : Hash) :
    (c.AddBlock b).GetTransaction h = c.GetTransaction h := rfl

theorem cacheGetBlock_addTxs (height : Nat) (ts : List Transaction) (c : BlockCache)
    (h : Hash) : (addTxs height ts c).GetBlock h = c.GetBlock h := by
  unfold BlockCache.GetBlock
  rw [addTxs_blocks]

theorem cacheGetBlock_addBlock_cases (c : BlockCache) (b : Block) (h : Hash)
    (b2 : Block) (hfind : (c.AddBlock b).GetBlock h = some b2) :
    (h = b.Hash ∧ b2 = b) ∨ (h ≠ b.Hash ∧ c.GetBlock h = some b2) := by
  unfold BlockCache.AddBlock BlockCache.GetBlock at hfind
  rw [show BLOCK_CACHE_SIZE = 255 + 1 from rfl, List.take_succ_cons] at hfind
  by_cases hh : h = b.Hash
  · rw [List.find?_cons_of_pos _ (by simp [hh])] at hfind
    simp only [Option.map_some', Option.some.injEq] at hfind
    exact Or.inl ⟨hh, hfind.symm⟩
  · rw [List.find?_cons_of_neg _ (by simpa using fun e => hh e.symm)] at hfind
    refine Or.inr ⟨hh, ?_⟩
    obtain ⟨kv, hkv, hv⟩ := Option.map_eq_some'.mp hfind
    unfold BlockCache.GetBlock
    rw [find?_take hkv]
    simp [hv]

theorem cacheGetTransaction_addTransaction (c : BlockCache) (t : Transaction)
    (height : Nat) (h : Hash) (r : Transaction × Nat)
    (hfind : (c.AddTransaction t height).GetTransaction h = some r) :
    (h = t.Hash ∧ r = (t, height)) ∨ (h ≠ t.Hash ∧ c.GetTransaction h = some r) := by
  unfold BlockCache.AddTransaction BlockCache.GetTransaction at hfind
  rw [show BLOCK_CACHE_SIZE = 255 + 1 from rfl, List.take_succ_cons] at hfind
  by_cases hh : h = t.Hash
  · rw [List.find?_cons_of_pos _ (by simp [hh])] at hfind
    simp only [Option.map_some', Option.some.injEq] at hfind
    exact Or.inl ⟨hh, hfind.symm⟩
  · rw [List.find?_cons_of_neg _ (by simpa using fun e => hh e.symm)] at hfind
    refine Or.inr ⟨hh, ?_⟩
    obtain ⟨kv, hkv, hv⟩ := Option.map_eq_some'.mp hfind
    unfold BlockCache.GetTransaction
    rw [find?_take hkv]
    simp [hv]

theorem cacheGetTransaction_addTxs (height : Nat) (ts : List Transaction) :
    ∀ (c : BlockCache) (h : Hash) (r : Transaction × Nat),
      (addTxs height ts c).GetTransaction h = some r →
      ((∃ t ∈ ts, h = t.Hash) ∧ r = (⟨h⟩, height))
      ∨ ((∀ t ∈ ts, h ≠ t.Hash) ∧ c.GetTransaction h = some r) := by
  induction ts with
  | nil =>
    intro c h r hfind
    exact Or.inr ⟨by simp, hfind⟩
  | cons t tl ih =>
    intro c h r hfind
    simp only [addTxs, List.foldl_cons] at hfind
    rcases ih (c.AddTransaction t height) h r hfind with ⟨⟨t2, hm, he⟩, hr⟩ | ⟨hall, hstep⟩
    · exact Or.inl ⟨⟨t2, by simp [hm], he⟩, hr⟩
    · rcases cacheGetTransaction_addTransaction c t height h r hstep with ⟨hh, hr⟩ | ⟨hh, hold⟩
      · refine Or.inl ⟨⟨t, by simp, hh⟩, ?_⟩
        rw [hr, hh]
        rfl
      · refine Or.inr ⟨?_, hold⟩
        intro t2 hm
        rcases List.mem_cons.mp hm with rfl | hm2
        · exact hh
        · exact hall t2 hm2

theorem loadHeaderWithTx_congr (st1 st2 : KVStore) (h : Hash)
    (hget : st1.Get (getHeaderKey h) = st2.Get (getHeaderKey h)) :
    loadHeaderWithTx st1 h = loadHeaderWithTx st2 h := by
  unfold loadHeaderWithTx
  rw [hget]

theorem loadTransactionData_congr (st1 st2 : KVStore) (h : Hash)
    (hget : st1.Get (getTransactionKey h) = st2.Get (getTransactionKey h)) :
    loadTransactionData st1 h = loadTransactionData st2 h := by
  unfold loadTransactionData
  rw [hget]

theorem loadHeader_of_loadHeaderWithTx (st : KVStore) (h : Hash) (hdr : Header)
    (hs : List Hash) (hload : loadHeaderWithTx st h = .ok (hdr, hs)) :
    loadHeader st h = .ok hdr := by
  unfold loadHeaderWithTx at hload
  split at hload
  · exact absurd hload (by simp)
  next value hget =>
    split at hload
    · exact absurd hload (by simp)
    next header r1 hth =>
      split at hload
      · exact absurd hload (by simp)
      next txSize r2 htu =>
        split at hload
        · exact absurd hload (by simp)
        next txHashes r3 hhs =>
          have hh : header = hdr := congrArg Prod.fst (Except.ok.inj hload)
          simp only [loadHeader, hget, hth]
          rw [hh]

theorem loadHeaderWithTx_get_ok (st : KVStore) (h : Hash) (p : Header × List Hash)
    (hload : loadHeaderWithTx st h = .ok p) :
    ∃ v, st.Get (getHeaderKey h) = .ok v := by
  unfold loadHeaderWithTx at hload
  split at hload
  · exact absurd hload (by simp)
  next value hget => exact ⟨value, hget⟩

theorem loadTransactionData_get_ok (st : KVStore) (h : Hash) (r : Transaction × Nat)
    (hload : loadTransactionData st h = .ok r) :
    ∃ v, st.Get (getTransactionKey h) = .ok v := by
  unfold loadTransactionData at hload
  split at hload
  · exact absurd hload (by simp)
  next value hget => exact ⟨value, hget⟩

theorem get_committed_header (s : BlockStore) (b : Block) (hfa : s.store.faults = []) :
    ((s.SaveBlock b).CommitTo).store.Get (getHeaderKey b.Hash) = .ok (headerValue b) := by
  rw [commit_saveBlock_store]
  unfold KVStore.Get
  simp only [hfa, List.not_mem_nil, if_false]
  rw [assocFind_committed_header]

theorem get_committed_tx (s : BlockStore) (b : Block) (hfa : s.store.faults = [])
    {t : Transaction} (htm : t ∈ b.Transactions) :
    ((s.SaveBlock b).CommitTo).store.Get (getTransactionKey t.Hash)
      = .ok (txValue b.Header.height t) := by
  rw [commit_saveBlock_store]
  unfold KVStore.Get
  simp only [hfa, List.not_mem_nil, if_false]
  rw [assocFind_committed_tx _ _ htm]

theorem get_committed_untouched (s : BlockStore) (b : Block) (k : List Nat)
    (hbatch : s.store.batch = [])
    (hh : k ≠ getHeaderKey b.Hash)
    (ht : ∀ t ∈ b.Transactions, k ≠ getTransactionKey t.Hash) :
    ((s.SaveBlock b).CommitTo).store.Get k = s.store.Get k := by
  rw [commit_saveBlock_store]
  unfold KVStore.Get
  simp only [hbatch, List.reverse_nil, List.nil_append]
  by_cases hf : k ∈ s.store.faults
  · rw [if_pos hf, if_pos hf]
  · rw [if_neg hf, if_neg hf, assocFind_committed_other b _ k hh ht]

theorem cacheOK_after_saveBlock_commit (s : BlockStore) (b : Block)
    (wf : WFBlock b) (hc : s.enableCache = true)
    (hbatch : s.store.batch = []) (hfa : s.store.faults = [])
    (hok : CacheOK s.cache s.store) :
    CacheOK ((s.SaveBlock b).CommitTo).cache ((s.SaveBlock b).CommitTo).store := by
  have hcache : ((s.SaveBlock b).CommitTo).cache
      = addTxs b.Header.height b.Transactions (s.cache.AddBlock b) :=
    saveBlock_cache_true s b hc
  have hloadH := loadHeaderWithTx_value _ b wf (get_committed_header s b hfa)
  have hloadT : ∀ t ∈ b.Transactions,
      loadTransactionData ((s.SaveBlock b).CommitTo).store t.Hash
        = .ok (t, b.Header.height) :=
    fun t ht => loadTransactionData_value _ t _ wf.1.1 (get_committed_tx s b hfa ht)
  constructor
  · intro h b2 hfind
    rw [hcache, cacheGetBlock_addTxs] at hfind
    rcases cacheGetBlock_addBlock_cases s.cache b h b2 hfind with ⟨hh1, hh2⟩ | ⟨hne, hold⟩
    · subst hh1
      rw [hh2]
      exact ⟨hloadH, fun t ht => Exists.intro b.Header.height (hloadT t ht)⟩
    · obtain ⟨holdH, holdT⟩ := hok.1 h b2 hold
      constructor
      · rw [loadHeaderWithTx_congr _ s.store h ?hg]
        · exact holdH
        case hg =>
          apply get_committed_untouched s b _ hbatch
          · intro hcon
            exact hne (by simpa [getHeaderKey] using hcon)
          · intro t _ hcon
            simp [getHeaderKey, getTransactionKey, DATA_HEADER, DATA_TRANSACTION] at hcon
      · intro t htm
        by_cases hmem : ∃ t2 ∈ b.Transactions, t.Hash = t2.Hash
        · obtain ⟨t2, hm2, he⟩ := hmem
          have heq : t = t2 := by
            cases t
            cases t2
            simpa [Transaction.Hash] using he
          subst heq
          exact ⟨b.Header.height, hloadT t hm2⟩
        · obtain ⟨h2, hload2⟩ := holdT t htm
          refine ⟨h2, ?_⟩
          rw [loadTransactionData_congr _ s.store _ ?hg2]
          · exact hload2
          case hg2 =>
            apply get_committed_untouched s b _ hbatch
            · simp [getHeaderKey, getTransactionKey, DATA_HEADER, DATA_TRANSACTION]
            · intro t2 hm2 hcon
              exact hmem ⟨t2, hm2, by simpa [getTransactionKey] using hcon⟩
  · intro h r hfind
    rw [hcache] at hfind
    rcases cacheGetTransaction_addTxs _ _ _ h r hfind with ⟨⟨t, htm, rfl⟩, hr⟩ | ⟨hall, hstep⟩
    · subst hr
      exact hloadT t htm
    · rw [cacheGetTransaction_addBlock] at hstep
      have hold := hok.2 h r hstep
      rw [loadTransactionData_congr _ s.store _ ?hg3]
      · exact hold
      case hg3 =>
        apply get_committed_untouched s b _ hbatch
        · simp [getHeaderKey, getTransactionKey, DATA_HEADER, DATA_TRANSACTION]
        · intro t2 hm2 hcon
          exact hall t2 hm2 (by simpa [getTransactionKey] using hcon)

theorem getBlockTxLoop_congr (s1 s2 : BlockStore)
    (hg : ∀ h, s1.GetTransaction h = s2.GetTransaction h) :
    ∀ hs : List Hash, getBlockTxLoop s1 hs = getBlockTxLoop s2 hs := by
  intro hs
  induction hs with
  | nil => rfl
  | cons h1 rest ih =>
    unfold getBlockTxLoop
    rw [hg, ih]

theorem rel_getTransaction (sC sU : BlockStore) (hrel : Rel sC sU) (h : Hash) :
    sC.GetTransaction h = sU.GetTransaction h := by
  obtain ⟨hce, hcu, hseq, hb, hf, hok⟩ := hrel
  rw [getTransaction_pure sC h (Or.inr hok), getTransaction_pure sU h (Or.inl hcu), hseq]

theorem rel_getBlock (sC sU : BlockStore) (hrel : Rel sC sU) (h : Hash) :
    sC.GetBlock h = sU.GetBlock h := by
  have hgt := fun h2 => rel_getTransaction sC sU hrel h2
  obtain ⟨hce, hcu, hseq, hb, hf, hok⟩ := hrel
  have hfs : sC.GetBlockFromStore h = sU.GetBlockFromStore h := by
    unfold BlockStore.GetBlockFromStore
    rw [hseq]
    cases loadHeaderWithTx sU.store h with
    | error e => rfl
    | ok p =>
      cases p with
      | mk hd hs2 =>
        exact congrArg
          (fun z => match z with
            | Except.error e => Except.error e
            | Except.ok txList => Except.ok (⟨hd, txList⟩ : Block))
          (getBlockTxLoop_congr sC sU hgt hs2)
  unfold BlockStore.GetBlock
  rw [hce, hcu]
  cases hcb : sC.cache.GetBlock h with
  | none => simpa using hfs
  | some b2 =>
    obtain ⟨hH, hT⟩ := hok.1 h b2 hcb
    have hres : sU.GetBlockFromStore h = .ok b2 := by
      apply getBlockFromStore_ok sU h b2
      · exact fun txh => getTransaction_pure sU txh (Or.inl hcu)
      · rw [← hseq]
        exact hH
      · intro t ht
        rw [← hseq]
        exact hT t ht
    simpa using hres.symm

theorem rel_getHeader (sC sU : BlockStore) (hrel : Rel sC sU) (h : Hash) :
    sC.GetHeader h = sU.GetHeader h := by
  obtain ⟨hce, hcu, hseq, hb, hf, hok⟩ := hrel
  unfold BlockStore.GetHeader
  rw [hce, hcu, hseq]
  cases hcb : sC.cache.GetBlock h with
  | none => simp
  | some b2 =>
    obtain ⟨hH, _⟩ := hok.1 h b2 hcb
    rw [hseq] at hH
    have := loadHeader_of_loadHeaderWithTx _ _ _ _ hH
    simpa using this.symm

theorem rel_containBlock (sC sU : BlockStore) (hrel : Rel sC sU) (h : Hash) :
    sC.ContainBlock h = sU.ContainBlock h := by
  obtain ⟨hce, hcu, hseq, hb, hf, hok⟩ := hrel
  unfold BlockStore.ContainBlock
  rw [hce, hcu, hseq]
  by_cases hcb : sC.cache.ContainBlock h
  · obtain ⟨b2, hb2⟩ := Option.isSome_iff_exists.mp hcb
    obtain ⟨hH, _⟩ := hok.1 h b2 hb2
    obtain ⟨v, hv⟩ := loadHeaderWithTx_get_ok _ _ _ hH
    rw [hseq] at hv
    simp [hcb, hv]
  · simp [hcb]

theorem rel_containTransaction (sC sU : BlockStore) (hrel : Rel sC sU) (h : Hash) :
    sC.ContainTransaction h = sU.ContainTransaction h := by
  obtain ⟨hce, hcu, hseq, hb, hf, hok⟩ := hrel
  unfold BlockStore.ContainTransaction
  rw [hce, hcu, hseq]
  by_cases hcb : sC.cache.ContainTransaction h
  · obtain ⟨r, hr⟩ := Option.isSome_iff_exists.mp hcb
    have hload := hok.2 h r hr
    obtain ⟨v, hv⟩ := loadTransactionData_get_ok _ _ _ hload
    rw [hseq] at hv
    simp [hcb, hv]
  · simp [hcb]

theorem rel_saveBlock_commit (sC sU : BlockStore) (b : Block) (wf : WFBlock b)
    (hrel : Rel sC sU) :
    Rel ((sC.SaveBlock b).CommitTo) ((sU.SaveBlock b).CommitTo) := by
  obtain ⟨hce, hcu, hseq, hb, hf, hok⟩ := hrel
  refine ⟨?_, ?_, ?_, ?_, ?_, ?_⟩
  · show (sC.SaveBlock b).enableCache = true
    rw [saveBlock_enableCache, hce]
  · show (sU.SaveBlock b).enableCache = false
    rw [saveBlock_enableCache, hcu]
  · rw [commit_saveBlock_store, commit_saveBlock_store, hseq]
  · rw [commit_saveBlock_store]
  · rw [commit_saveBlock_store]
    exact hf
  · exact cacheOK_after_saveBlock_commit sC b wf hce hb hf ⟨hok.1, hok.2⟩

theorem runOps_cache_equiv (n : Nat) :
    ∀ ops : List Op, ops.length ≤ n → ∀ sC sU : BlockStore, Rel sC sU →
      committedOps ops = true → wfOps ops = true →
      runOps sC ops = runOps sU ops := by
  induction n with
  | zero =>
    intro ops hlen sC sU _ _ _
    have hnil : ops = [] := List.eq_nil_of_length_eq_zero (Nat.le_zero.mp hlen)
    rw [hnil]
    rfl
  | succ m ih =>
    intro ops hlen sC sU hrel hcom hwf
    cases ops with
    | nil => rfl
    | cons op rest =>
      cases op with
      | saveBlock b =>
        cases rest with
        | nil => exact Bool.noConfusion (show false = true from hcom)
        | cons op2 rest2 =>
          cases op2 with
          | commit =>
            have hwf2 := (Bool.and_eq_true _ _).mp
              (show (decide (WFBlock b) && wfOps rest2) = true from hwf)
            have hwfb : WFBlock b := of_decide_eq_true hwf2.1
            have hcom2 : committedOps rest2 = true := hcom
            have hlen2 : rest2.length ≤ m := by
              simp only [List.length_cons] at hlen
              omega
            show Out.unitOut :: (Out.unitOut :: runOps ((sC.SaveBlock b).CommitTo) rest2)
                = Out.unitOut :: (Out.unitOut :: runOps ((sU.SaveBlock b).CommitTo) rest2)
            rw [ih rest2 hlen2 _ _ (rel_saveBlock_commit sC sU b hwfb hrel) hcom2 hwf2.2]
          | saveBlock b2 => exact Bool.noConfusion (show false = true from hcom)
          | getBlock h => exact Bool.noConfusion (show false = true from hcom)
          | getHeader h => exact Bool.noConfusion (show false = true from hcom)
          | getTx h => exact Bool.noConfusion (show false = true from hcom)
          | containBlock h => exact Bool.noConfusion (show false = true from hcom)
          | containTx h => exact Bool.noConfusion (show false = true from hcom)
      | commit =>
        have hlen2 : rest.length ≤ m := by
          simp only [List.length_cons] at hlen
          omega
        have h1 : sC.CommitTo = sC := by
          unfold BlockStore.CommitTo
          rw [batchCommit_empty _ hrel.2.2.2.1]
        have h2 : sU.CommitTo = sU := by
          unfold BlockStore.CommitTo
          rw [batchCommit_empty _ (by rw [← hrel.2.2.1]; exact hrel.2.2.2.1)]
        show Out.unitOut :: runOps sC.CommitTo rest = Out.unitOut :: runOps sU.CommitTo rest
        rw [h1, h2, ih rest hlen2 sC sU hrel hcom hwf]
      | getBlock h =>
        have hlen2 : rest.length ≤ m := by
          simp only [List.length_cons] at hlen
          omega
        show Out.blockOut (sC.GetBlock h) :: runOps sC rest
            = Out.blockOut (sU.GetBlock h) :: runOps sU rest
        rw [rel_getBlock sC sU hrel h, ih rest hlen2 sC sU hrel hcom hwf]
      | getHeader h =>
        have hlen2 : rest.length ≤ m := by
          simp only [List.length_cons] at hlen
          omega
        show Out.headerOut (sC.GetHeader h) :: runOps sC rest
            = Out.headerOut (sU.GetHeader h) :: runOps sU rest
        rw [rel_getHeader sC sU hrel h, ih rest hlen2 sC sU hrel hcom hwf]
      | getTx h =>
        have hlen2 : rest.length ≤ m := by
          simp only [List.length_cons] at hlen
          omega
        show Out.txOut (sC.GetTransaction h) :: runOps sC rest
            = Out.txOut (sU.GetTransaction h) :: runOps sU rest
        rw [rel_getTransaction sC sU hrel h, ih rest hlen2 sC sU hrel hcom hwf]
      | containBlock h =>
        have hlen2 : rest.length ≤ m := by
          simp only [List.length_cons] at hlen
          omega
        show Out.boolOut (sC.ContainBlock h) :: runOps sC rest
            = Out.boolOut (sU.ContainBlock h) :: runOps sU rest
        rw [rel_containBlock sC sU hrel h, ih rest hlen2 sC sU hrel hcom hwf]
      | containTx h =>
        have hlen2 : rest.length ≤ m := by
          simp only [List.length_cons] at hlen
          omega
        show Out.boolOut (sC.ContainTransaction h) :: runOps sC rest
            = Out.boolOut (sU.ContainTransaction h) :: runOps sU rest
        rw [rel_containTransaction sC sU hrel h, ih rest hlen2 sC sU hrel hcom hwf]

/-! ### Claim C7: the cache and observable results -/

/-- Counterexample to C7 as stated: `SaveBlock` puts the block in the
cache immediately but only stages the store writes, so before `CommitTo`
a cache-enabled store already answers `GetBlock` with the block while the
cache-disabled store still reports NotFound — the sequence
[SaveBlock B; GetBlock (hash B)] observably distinguishes the two. -/
theorem cache_changes_observable_results :
    runOps (mkBlockStore true [])
        [.saveBlock ⟨⟨0, [], [], 0, 0, []⟩, []⟩,
         .getBlock (Block.Hash ⟨⟨0, [], [], 0, 0, []⟩, []⟩)]
      ≠ runOps (mkBlockStore false [])
        [.saveBlock ⟨⟨0, [], [], 0, 0, []⟩, []⟩,
         .getBlock (Block.Hash ⟨⟨0, [], [], 0, 0, []⟩, []⟩)] := by
  decide

/-- C7 (amended): under the batch discipline the spec prescribes — every
`SaveBlock` immediately followed by `CommitTo` — the observable results
of `GetBlock`, `GetHeader`, `GetTransaction`, `ContainBlock` and
`ContainTransaction` over any operation sequence of well-formed blocks
are identical whether the store was created with the cache enabled or
disabled. -/
theorem cache_transparent_for_committed_ops (ops : List Op)
    (d : List (List Nat × List Nat))
    (hcom : committedOps ops = true) (hwf : wfOps ops = true) :
    runOps (mkBlockStore true d) ops = runOps (mkBlockStore false d) ops := by
  apply runOps_cache_equiv ops.length ops le_rfl _ _ _ hcom hwf
  refine ⟨rfl, rfl, rfl, rfl, rfl, ?_, ?_⟩
  · intro h b2 hfind
    simp [mkBlockStore, emptyCache, BlockCache.GetBlock] at hfind
  · intro h r hfind
    simp [mkBlockStore, emptyCache, BlockCache.GetTransaction] at hfind

/-- Witness for the amended C7: save-commit-read of a one-transaction
block observes the same results with and without the cache. -/
theorem cache_transparent_for_committed_ops_witness :
    committedOps [.saveBlock ⟨⟨0, [], [], 0, 0, []⟩, [⟨[4]⟩]⟩, .commit,
        .getBlock (Block.Hash ⟨⟨0, [], [], 0, 0, []⟩, [⟨[4]⟩]⟩),
        .containTx [4]] = true
    ∧ wfOps [.saveBlock ⟨⟨0, [], [], 0, 0, []⟩, [⟨[4]⟩]⟩, .commit,
        .getBlock (Block.Hash ⟨⟨0, [], [], 0, 0, []⟩, [⟨[4]⟩]⟩),
        .containTx [4]] = true
    ∧ runOps (mkBlockStore true [])
        [.saveBlock ⟨⟨0, [], [], 0, 0, []⟩, [⟨[4]⟩]⟩, .commit,
         .getBlock (Block.Hash ⟨⟨0, [], [], 0, 0, []⟩, [⟨[4]⟩]⟩),
         .containTx [4]]
      = runOps (mkBlockStore false [])
        [.saveBlock ⟨⟨0, [], [], 0, 0, []⟩, [⟨[4]⟩]⟩, .commit,
         .getBlock (Block.Hash ⟨⟨0, [], [], 0, 0, []⟩, [⟨[4]⟩]⟩),
         .containTx [4]] := by
  refine ⟨by decide, by decide, ?_⟩
  exact cache_transparent_for_committed_ops _ [] (by decide) (by decide)

end Poly
